import Mathlib

/-!
Verification development for the rschip8 CHIP-8 virtual machine.

This file gives a shallow embedding of the core of the emulator
(src/quirks.rs, src/memory.rs, src/instruction.rs, src/cpu.rs,
src/chip8.rs) and proves properties of the instruction semantics,
the scheduler and the decoder.

Conventions of the embedding:
- machine integers (u8, u16) are modelled as Nat, with an explicit
  `% 256` or `% 65536` wherever the Rust code wraps, and Nat
  truncated subtraction standing in for the guarded decrements;
- the 4096-byte memory array is modelled as a function from
  addresses to bytes; reads mask the address with `% 4096` (the
  Rust code masks with `& 0xfff`) and reduce the stored value
  `% 256` (the Rust array stores u8);
- the video buffer `vram` is a `List Bool`, registers `vx`, the
  key flags `keys` and the `save` scratch area are lists, and the
  call stack is a list whose head is the top of the stack;
- the `RND_Vx_kk` instruction takes its random byte from an
  explicit oracle argument, and the scheduler threads an oracle
  function indexed by remaining fuel;
- `Instruction.parse` returns an `Option`: the Rust decoder panics
  on an unknown opcode, which the embedding models as `none`, and
  `CPU.step` propagates that failure.
-/

set_option maxRecDepth 8000

namespace RsChip8

/-- The seven behaviour flags, mirroring `Quirks` in src/quirks.rs. -/
structure Quirks where
  vf_reset : Bool
  memory : Bool
  display_wait : Bool
  sprite_wrapping : Bool
  hires_draw_flag : Bool
  shifting : Bool
  jumping : Bool
  deriving DecidableEq

/-- The `chip8` preset of src/quirks.rs. -/
def Quirks.chip8 : Quirks :=
  { vf_reset := true, memory := true, display_wait := true, sprite_wrapping := false,
    hires_draw_flag := false, shifting := false, jumping := false }

/-- The `superchip` preset of src/quirks.rs. -/
def Quirks.superchip : Quirks :=
  { vf_reset := false, memory := false, display_wait := false, sprite_wrapping := false,
    hires_draw_flag := true, shifting := true, jumping := true }

/-- The `xochip` preset of src/quirks.rs. -/
def Quirks.xochip : Quirks :=
  { vf_reset := false, memory := true, display_wait := false, sprite_wrapping := true,
    hires_draw_flag := false, shifting := false, jumping := false }

/-- The 4096-byte memory of src/memory.rs, modelled by its lookup function. -/
structure Memory where
  mem : Nat → Nat

/-- Memory read: the Rust code indexes with `addr & 0xfff`; the stored cell is a
u8, which the model enforces with the trailing `% 256`. -/
def Memory.read (m : Memory) (addr : Nat) : Nat :=
  m.mem (addr % 4096) % 256

/-- Memory write at the masked address, mirroring `Memory::write`. -/
def Memory.write (m : Memory) (addr b : Nat) : Memory :=
  ⟨fun a => if a = addr % 4096 then b else m.mem a⟩

/-- The closed instruction set of src/instruction.rs. -/
inductive Instruction where
  | SYS_addr (addr : Nat)
  | CLS
  | RET
  | JP_addr (addr : Nat)
  | CALL_addr (addr : Nat)
  | SE_Vx_kk (x kk : Nat)
  | SNE_Vx_kk (x kk : Nat)
  | SE_Vx_Vy (x y : Nat)
  | LD_Vx_kk (x kk : Nat)
  | ADD_Vx_kk (x kk : Nat)
  | LD_Vx_Vy (x y : Nat)
  | OR_Vx_Vy (x y : Nat)
  | AND_Vx_Vy (x y : Nat)
  | XOR_Vx_Vy (x y : Nat)
  | ADD_Vx_Vy (x y : Nat)
  | SUB_Vx_Vy (x y : Nat)
  | SHR_Vx_Vy (x y : Nat)
  | SUBN_Vx_Vy (x y : Nat)
  | SHL_Vx_Vy (x y : Nat)
  | SNE_Vx_Vy (x y : Nat)
  | LD_I_addr (addr : Nat)
  | JP_Vx_addr (x : Nat) (addr : Nat)
  | RND_Vx_kk (x kk : Nat)
  | SKP_Vx (x : Nat)
  | SKNP_Vx (x : Nat)
  | LD_Vx_DT (x : Nat)
  | LD_Vx_K (x : Nat)
  | LD_DT_Vx (x : Nat)
  | LD_ST_Vx (x : Nat)
  | ADD_I_Vx (x : Nat)
  | LD_F_Vx (x : Nat)
  | LD_B_Vx (x : Nat)
  | LD_iI_Vx (x : Nat)
  | LD_Vx_iI (x : Nat)
  | DRW_Vx_Vy_n (x y n : Nat)
  | SCD_n (n : Nat)
  | SCR
  | SCL
  | EXIT
  | LORES
  | HIRES
  | LD_HF_Vx (x : Nat)
  | SAVE_Vx (x : Nat)
  | LOAD_Vx (x : Nat)
  deriving DecidableEq

/-- The opcode decoder `Instruction::parse` of src/instruction.rs.  The four
nibbles are matched in the source order; the final catch-all models the Rust
panic-on-invalid-opcode arm as `none`. -/
def Instruction.parse (op : Nat) : Option Instruction :=
  let n1 := op / 4096 % 16
  let n2 := op / 256 % 16
  let n3 := op / 16 % 16
  let n4 := op % 16
  let nnn := op % 4096
  let kk := op % 256
  match n1, n2, n3, n4 with
  | 0x0, 0x0, 0xE, 0x0 => some .CLS
  | 0x0, 0x0, 0xE, 0xE => some .RET
  | 0x0, 0x0, 0xF, 0xB => some .SCR
  | 0x0, 0x0, 0xF, 0xC => some .SCL
  | 0x0, 0x0, 0xF, 0xD => some .EXIT
  | 0x0, 0x0, 0xF, 0xE => some .LORES
  | 0x0, 0x0, 0xF, 0xF => some .HIRES
  | 0x0, 0x0, 0xC, n => some (.SCD_n n)
  | 0x0, 0x2, 0x3, 0x0 => some .CLS
  | 0x0, _, _, _ => some (.SYS_addr nnn)
  | 0x1, _, _, _ => some (.JP_addr nnn)
  | 0x2, _, _, _ => some (.CALL_addr nnn)
  | 0x3, x, _, _ => some (.SE_Vx_kk x kk)
  | 0x4, x, _, _ => some (.SNE_Vx_kk x kk)
  | 0x5, x, y, 0x0 => some (.SE_Vx_Vy x y)
  | 0x6, x, _, _ => some (.LD_Vx_kk x kk)
  | 0x7, x, _, _ => some (.ADD_Vx_kk x kk)
  | 0x8, x, y, 0x0 => some (.LD_Vx_Vy x y)
  | 0x8, x, y, 0x1 => some (.OR_Vx_Vy x y)
  | 0x8, x, y, 0x2 => some (.AND_Vx_Vy x y)
  | 0x8, x, y, 0x3 => some (.XOR_Vx_Vy x y)
  | 0x8, x, y, 0x4 => some (.ADD_Vx_Vy x y)
  | 0x8, x, y, 0x5 => some (.SUB_Vx_Vy x y)
  | 0x8, x, y, 0x6 => some (.SHR_Vx_Vy x y)
  | 0x8, x, y, 0x7 => some (.SUBN_Vx_Vy x y)
  | 0x8, x, y, 0xE => some (.SHL_Vx_Vy x y)
  | 0x9, x, y, 0x0 => some (.SNE_Vx_Vy x y)
  | 0xA, _, _, _ => some (.LD_I_addr nnn)
  | 0xB, x, _, _ => some (.JP_Vx_addr x nnn)
  | 0xC, x, _, _ => some (.RND_Vx_kk x kk)
  | 0xD, x, y, n => some (.DRW_Vx_Vy_n x y n)
  | 0xE, x, 0x9, 0xE => some (.SKP_Vx x)
  | 0xE, x, 0xA, 0x1 => some (.SKNP_Vx x)
  | 0xF, x, 0x0, 0x7 => some (.LD_Vx_DT x)
  | 0xF, x, 0x0, 0xA => some (.LD_Vx_K x)
  | 0xF, x, 0x1, 0x5 => some (.LD_DT_Vx x)
  | 0xF, x, 0x1, 0x8 => some (.LD_ST_Vx x)
  | 0xF, x, 0x1, 0xE => some (.ADD_I_Vx x)
  | 0xF, x, 0x3, 0x3 => some (.LD_B_Vx x)
  | 0xF, x, 0x5, 0x5 => some (.LD_iI_Vx x)
  | 0xF, x, 0x6, 0x5 => some (.LD_Vx_iI x)
  | 0xF, x, 0x2, 0x9 => some (.LD_F_Vx x)
  | 0xF, x, 0x3, 0x0 => some (.LD_HF_Vx x)
  | 0xF, x, 0x7, 0x5 => some (.SAVE_Vx x)
  | 0xF, x, 0x8, 0x5 => some (.LOAD_Vx x)
  | _, _, _, _ => none

/-- The CPU state of src/cpu.rs. -/
structure CPU where
  quirks : Quirks
  clock_speed : Nat
  running : Bool
  hires : Bool
  memory : Memory
  keys : List Bool
  pc : Nat
  stack : List Nat
  vx : List Nat
  dt : Nat
  st : Nat
  i : Nat
  save : List Nat
  width : Nat
  height : Nat
  vram : List Bool

/-- Register read `self.vx[idx]` (the Rust index is always in range). -/
def CPU.vxGet (c : CPU) (idx : Nat) : Nat :=
  c.vx.getD idx 0

/-- Key press `CPU::keydown`: the Rust code indexes with `key & 0xf`. -/
def CPU.keydown (c : CPU) (key : Nat) : CPU :=
  { c with keys := c.keys.set (key % 16) true }

/-- Key release `CPU::keyup`. -/
def CPU.keyup (c : CPU) (key : Nat) : CPU :=
  { c with keys := c.keys.set (key % 16) false }

/-- Call-stack push `CPU::push`; the list head is the top of the stack. -/
def CPU.push (c : CPU) (v : Nat) : CPU :=
  { c with stack := v :: c.stack }

/-- Call-stack pop `CPU::pop`, returning 0 on an empty stack
(`self.stack.pop().unwrap_or(0)`). -/
def CPU.pop (c : CPU) : Nat × CPU :=
  match c.stack with
  | [] => (0, c)
  | v :: rest => (v, { c with stack := rest })

/-- Timer decrement `CPU::tick_timers`: each timer moves down by one, floored
at zero. -/
def CPU.tick_timers (c : CPU) : CPU :=
  { c with
    st := if 0 < c.st then c.st - 1 else c.st,
    dt := if 0 < c.dt then c.dt - 1 else c.dt }

/-- Model of `Vec::resize(n, false)` on the video buffer: the prefix up to the
new length is kept, and newly exposed cells are `false`. -/
def listResize (l : List Bool) (n : Nat) : List Bool :=
  if n ≤ l.length then l.take n else l ++ List.replicate (n - l.length) false

/-- One row of the `SCR` instruction: shift the row four pixels right, filling
the exposed left column block with `false` (the source uses `self.width`; rows
produced by the chunking below have exactly that length). -/
def scrRow (w : Nat) (row : List Bool) : List Bool :=
  List.replicate 4 false ++ row.take (w - 4)

/-- One row of the `SCL` instruction: shift the row four pixels left, filling
the exposed right column block with `false`. -/
def sclRow (row : List Bool) : List Bool :=
  row.drop 4 ++ List.replicate 4 false

/-- Split the video buffer into rows of width `w`, mirroring `chunks_mut`. -/
def chunksOf (w : Nat) (l : List Bool) : List (List Bool) :=
  if h : w = 0 ∨ l.length = 0 then []
  else l.take w :: chunksOf w (l.drop w)
termination_by l.length
decreasing_by
  simp only [List.length_drop]
  omega

/-- The flat vram offset the draw loops of `DRW_Vx_Vy_n` compute for a sprite
column: the source expression
`if (x+col) >= width { row_offset + x + col - width } else { row_offset + x + col }`. -/
def colOffset (width x rowOffset col : Nat) : Nat :=
  if width ≤ x + col then rowOffset + x + col - width else rowOffset + x + col

/-- The row base offset the draw loops compute for a sprite row: the source
expression `if (y+row) >= height { width*(y+row-height) } else { width*(y+row) }`. -/
def rowOffsetOf (width height y row : Nat) : Nat :=
  if height ≤ y + row then width * (y + row - height) else width * (y + row)

/-- The 16-bit row pattern of a 16x16 sprite, read big-endian from memory. -/
def bits16 (m : Memory) (iReg row : Nat) : Nat :=
  m.read (iReg + row * 2) * 256 + m.read (iReg + row * 2 + 1)

/-- The inner column loop of the 16x16 (`n == 0`) draw case of
`DRW_Vx_Vy_n` in src/cpu.rs: walks the remaining columns, breaking when a
column falls off the right edge without the wrapping quirk, XOR-drawing set
sprite bits and recording a row-local `clobber` flag. -/
def drawCols16 (wrap : Bool) (width x rowOffset bits : Nat) :
    List Nat → List Bool → Bool → List Bool × Bool
  | [], vram, clobber => (vram, clobber)
  | col :: rest, vram, clobber =>
    if width ≤ x + col ∧ wrap = false then (vram, clobber)
    else
      let offset := colOffset width x rowOffset col
      if 0 < bits &&& (1 <<< (15 - col)) then
        let clobber2 := if vram.getD offset false then true else clobber
        drawCols16 wrap width x rowOffset bits rest
          (vram.set offset (! vram.getD offset false)) clobber2
      else
        drawCols16 wrap width x rowOffset bits rest vram clobber

/-- The outer row loop of the 16x16 (`n == 0`) draw case: an off-bottom row
increments `VF` (mod 256, as a u8) and breaks without the wrapping quirk; a
drawn row whose column loop reported a clobber also increments `VF`. -/
def drawRows16 (wrap : Bool) (width height : Nat) (m : Memory) (iReg x y : Nat) :
    List Nat → List Bool → Nat → List Bool × Nat
  | [], vram, vf => (vram, vf)
  | row :: rest, vram, vf =>
    let off := height ≤ y + row
    let vf1 := if off then (vf + 1) % 256 else vf
    if off ∧ wrap = false then (vram, vf1)
    else
      let r := drawCols16 wrap width x (rowOffsetOf width height y row)
        (bits16 m iReg row) (List.range 16) vram false
      let vf2 := if r.2 then (vf1 + 1) % 256 else vf1
      drawRows16 wrap width height m iReg x y rest r.1 vf2

/-- The inner column loop of the 8-pixel-wide (`n != 0`) draw case: set sprite
bits XOR the pixel, and a set-to-unset transition writes `VF = 1` directly. -/
def drawColsN (wrap : Bool) (width x rowOffset bits : Nat) :
    List Nat → List Bool → Nat → List Bool × Nat
  | [], vram, vf => (vram, vf)
  | col :: rest, vram, vf =>
    if width ≤ x + col ∧ wrap = false then (vram, vf)
    else
      let offset := colOffset width x rowOffset col
      if 0 < bits &&& (1 <<< (7 - col)) then
        let vf2 := if vram.getD offset false then 1 else vf
        drawColsN wrap width x rowOffset bits rest
          (vram.set offset (! vram.getD offset false)) vf2
      else
        drawColsN wrap width x rowOffset bits rest vram vf

/-- The outer row loop of the `n != 0` draw case: an off-bottom row breaks
without the wrapping quirk (with no `VF` change), otherwise the row is drawn
at the (possibly wrapped) row offset. -/
def drawRowsN (wrap : Bool) (width height : Nat) (m : Memory) (iReg x y : Nat) :
    List Nat → List Bool → Nat → List Bool × Nat
  | [], vram, vf => (vram, vf)
  | row :: rest, vram, vf =>
    if height ≤ y + row ∧ wrap = false then (vram, vf)
    else
      let r := drawColsN wrap width x (rowOffsetOf width height y row)
        (m.read (iReg + row)) (List.range 8) vram vf
      drawRowsN wrap width height m iReg x y rest r.1 r.2

/-- The state transition of `CPU::execute` in src/cpu.rs.  `rnd` is the random
oracle consumed by `RND_Vx_kk`.  The Rust function additionally returns the
constant cycle count 8, which `CPU.step` accounts for separately. -/
def CPU.execute (c : CPU) (rnd : Nat) (inst : Instruction) : CPU :=
  match inst with
  | .SYS_addr _ => c
  | .EXIT => { c with running := false }
  | .RET =>
    let p := c.pop
    { p.2 with pc := p.1 }
  | .JP_addr addr =>
    { c with running := if c.pc = addr + 2 then false else c.running, pc := addr }
  | .JP_Vx_addr x addr =>
    let vreg := if c.quirks.jumping then x else 0
    { c with pc := addr + c.vxGet vreg }
  | .CALL_addr addr =>
    let c1 := c.push c.pc
    { c1 with pc := addr }
  | .LD_Vx_kk x kk => { c with vx := c.vx.set x kk }
  | .LD_Vx_Vy x y => { c with vx := c.vx.set x (c.vxGet y) }
  | .LD_I_addr addr => { c with i := addr }
  | .LD_DT_Vx x => { c with dt := c.vxGet x }
  | .LD_ST_Vx x => { c with st := c.vxGet x }
  | .LD_Vx_DT x => { c with vx := c.vx.set x c.dt }
  | .LD_iI_Vx x =>
    let c1 := (List.range (x + 1)).foldl
      (fun acc k => { acc with memory := acc.memory.write (acc.i + k) (acc.vxGet k) }) c
    if c1.quirks.memory then { c1 with i := (c1.i + x + 1) % 65536 } else c1
  | .LD_Vx_iI x =>
    let c1 := (List.range (x + 1)).foldl
      (fun acc k => { acc with vx := acc.vx.set k (acc.memory.read (acc.i + k)) }) c
    if c1.quirks.memory then { c1 with i := (c1.i + x + 1) % 65536 } else c1
  | .LD_B_Vx x =>
    let v := c.vxGet x
    let m1 := c.memory.write (c.i + 0) (v / 100 % 10)
    let m2 := m1.write (c.i + 1) (v / 10 % 10)
    let m3 := m2.write (c.i + 2) (v % 10)
    { c with memory := m3 }
  | .ADD_Vx_kk x kk =>
    { c with vx := c.vx.set x ((c.vxGet x + kk) % 256) }
  | .ADD_I_Vx x =>
    let i1 := (c.i + c.vxGet x) % 65536
    { c with
      i := i1 % 4096,
      vx := c.vx.set 15 (if 0x0fff < i1 then 1 else 0) }
  | .ADD_Vx_Vy x y =>
    let a := c.vxGet x
    let b := c.vxGet y
    { c with vx := (c.vx.set x ((a + b) % 256)).set 15 (if 255 < a + b then 1 else 0) }
  | .SE_Vx_kk x kk => if c.vxGet x = kk then { c with pc := c.pc + 2 } else c
  | .SNE_Vx_kk x kk => if c.vxGet x ≠ kk then { c with pc := c.pc + 2 } else c
  | .SE_Vx_Vy x y => if c.vxGet x = c.vxGet y then { c with pc := c.pc + 2 } else c
  | .SNE_Vx_Vy x y => if c.vxGet x ≠ c.vxGet y then { c with pc := c.pc + 2 } else c
  | .AND_Vx_Vy x y =>
    let vx1 := c.vx.set x (c.vxGet x &&& c.vxGet y)
    { c with vx := if c.quirks.vf_reset then vx1.set 15 0 else vx1 }
  | .OR_Vx_Vy x y =>
    let vx1 := c.vx.set x (c.vxGet x ||| c.vxGet y)
    { c with vx := if c.quirks.vf_reset then vx1.set 15 0 else vx1 }
  | .XOR_Vx_Vy x y =>
    let vx1 := c.vx.set x (c.vxGet x ^^^ c.vxGet y)
    { c with vx := if c.quirks.vf_reset then vx1.set 15 0 else vx1 }
  | .SUB_Vx_Vy x y =>
    let a := c.vxGet x
    let b := c.vxGet y
    { c with vx := (c.vx.set x ((a + 256 - b) % 256)).set 15 (if a < b then 0 else 1) }
  | .SUBN_Vx_Vy x y =>
    let a := c.vxGet x
    let b := c.vxGet y
    { c with vx := (c.vx.set x ((b + 256 - a) % 256)).set 15 (if b < a then 0 else 1) }
  | .SHL_Vx_Vy x y =>
    let vx1 := if c.quirks.shifting then c.vx else c.vx.set x (c.vxGet y)
    let v := vx1.getD x 0
    { c with vx := (vx1.set x (v <<< 1 % 256)).set 15 (if 0 < v &&& 128 then 1 else 0) }
  | .SHR_Vx_Vy x y =>
    let vx1 := if c.quirks.shifting then c.vx else c.vx.set x (c.vxGet y)
    let v := vx1.getD x 0
    { c with vx := (vx1.set x (v >>> 1)).set 15 (if 0 < v &&& 1 then 1 else 0) }
  | .LD_Vx_K x =>
    match c.keys.findIdx? (fun v => v) with
    | some res => { c with vx := c.vx.set x res }
    | none => { c with pc := c.pc - 2 }
  | .SKP_Vx x =>
    if c.keys.getD (c.vxGet x % 16) false then { c with pc := c.pc + 2 } else c
  | .SKNP_Vx x =>
    if ! c.keys.getD (c.vxGet x % 16) false then { c with pc := c.pc + 2 } else c
  | .RND_Vx_kk x kk => { c with vx := c.vx.set x (rnd % (kk + 1)) }
  | .LD_F_Vx x => { c with i := 5 * c.vxGet x }
  | .LD_HF_Vx x => { c with i := 0x050 + 10 * c.vxGet x }
  | .CLS => { c with vram := List.replicate c.vram.length false }
  | .LORES =>
    { c with hires := false, width := 64, height := 32, vram := listResize c.vram (64 * 32) }
  | .HIRES =>
    { c with hires := true, width := 128, height := 64, vram := listResize c.vram (128 * 64) }
  | .SCD_n n =>
    let k := n * c.width
    let len := (c.height - n) * c.width
    { c with vram := List.replicate k false ++ c.vram.take len ++ c.vram.drop (k + len) }
  | .SCR => { c with vram := ((chunksOf c.width c.vram).map (scrRow c.width)).flatten }
  | .SCL => { c with vram := ((chunksOf c.width c.vram).map sclRow).flatten }
  | .DRW_Vx_Vy_n vxi vyi n =>
    let x0 := c.vxGet vxi
    let y0 := c.vxGet vyi
    let x := if c.width ≤ x0 then x0 % c.width else x0
    let y := if c.height ≤ y0 then y0 % c.height else y0
    let c1 := { c with vx := c.vx.set 15 0 }
    if n = 0 then
      let r := drawRows16 c1.quirks.sprite_wrapping c1.width c1.height c1.memory c1.i x y
        (List.range 16) c1.vram 0
      { c1 with vram := r.1, vx := c1.vx.set 15 r.2 }
    else
      let r := drawRowsN c1.quirks.sprite_wrapping c1.width c1.height c1.memory c1.i x y
        (List.range n) c1.vram 0
      { c1 with vram := r.1, vx := c1.vx.set 15 r.2 }
  | .SAVE_Vx x =>
    (List.range (min x 7 + 1)).foldl
      (fun acc k => { acc with save := acc.save.set k (acc.vxGet k) }) c
  | .LOAD_Vx x =>
    (List.range (min x 7 + 1)).foldl
      (fun acc k => { acc with vx := acc.vx.set k (acc.save.getD k 0) }) c

/-- One fetch-decode-execute cycle `CPU::step`: reads the big-endian opcode at
`pc`, advances `pc` by 2 before executing, and returns the cycle cost: 8 for
every instruction except a draw under the `display_wait` quirk, which costs a
full timer tick (`clock_speed / 6000`). -/
def CPU.step (c : CPU) (rnd : Nat) : Option (CPU × Nat) :=
  let op := c.memory.read c.pc * 256 + c.memory.read (c.pc + 1)
  match Instruction.parse op with
  | none => none
  | some inst =>
    let c2 := CPU.execute { c with pc := c.pc + 2 } rnd inst
    let cycles :=
      match inst, c.quirks.display_wait with
      | .DRW_Vx_Vy_n _ _ _, true => c.clock_speed / 6000
      | _, _ => 8
    some (c2, cycles)

/-- The machine of src/chip8.rs: a CPU, the debugger halt flag, and the
breakpoint set (modelled as a list used only through membership). -/
structure Chip8 where
  cpu : CPU
  halted : Bool
  breakpoints : List Nat

/-- The instruction burst loop inside `Chip8::tick`: steps the CPU while it is
running and the cycle budget is not exhausted; a step whose post-step `pc` is a
registered breakpoint stops the burst immediately and reports a hit.  `fuel`
bounds the recursion; each loop iteration consumes at least one cycle, so
`Chip8.tick` passes enough fuel for the exhaustion branch to be unreachable. -/
def tickLoop (rs : Nat → Nat) (bps : List Nat) (maxCycles : Nat) :
    Nat → CPU → Nat → Option (CPU × Bool)
  | 0, c, _ => some (c, false)
  | fuel + 1, c, cycles =>
    if c.running = true ∧ cycles < maxCycles then
      match c.step (rs fuel) with
      | none => none
      | some (c2, used) =>
        let cycles2 := cycles + used
        if bps.contains c2.pc then some (c2, true)
        else if maxCycles ≤ cycles2 then some (c2, false)
        else tickLoop rs bps maxCycles fuel c2 cycles2
    else some (c, false)

/-- The scheduler entry point `Chip8::tick`: a no-op when the CPU is stopped or
the machine is halted; otherwise runs the burst loop with budget
`clock_speed / 6000`, records a breakpoint hit in `halted`, and finally applies
`tick_timers` (the Rust code calls `tick_timers` after the loop in all cases,
including a breakpoint-shortened tick). -/
def Chip8.tick (m : Chip8) (rs : Nat → Nat) : Option Chip8 :=
  if m.cpu.running = false ∨ m.halted = true then some m
  else
    let maxCycles := m.cpu.clock_speed / 6000
    match tickLoop rs m.breakpoints maxCycles (maxCycles + 1) m.cpu 0 with
    | none => none
    | some r => some { m with cpu := r.1.tick_timers, halted := r.2 }

/-- Key press forwarding `Chip8::keydown`. -/
def Chip8.keydown (m : Chip8) (key : Nat) : Chip8 :=
  { m with cpu := m.cpu.keydown key }

/-- Key release forwarding `Chip8::keyup`. -/
def Chip8.keyup (m : Chip8) (key : Nat) : Chip8 :=
  { m with cpu := m.cpu.keyup key }

/-- Debugger resume `Chip8::resume`: clears `halted` and nothing else. -/
def Chip8.resume (m : Chip8) : Chip8 :=
  { m with halted := false }

/-! ## Claim C1: specification-side description of the draw instruction

The draw loops are characterised as a list of pixel toggles applied to the
video buffer, plus a VF law.  The positions below are computed from the
initial state only; the proofs justify this by showing every toggled offset
is touched exactly once during a draw. -/

/-- Apply a sequence of XOR pixel toggles to the video buffer. -/
def applyToggles (vram : List Bool) : List Nat → List Bool
  | [] => vram
  | p :: ps => applyToggles (vram.set p (! vram.getD p false)) ps

/-- The columns of a sprite row the draw loops visit: all of them under the
wrapping quirk, otherwise only those before the right edge (the loops break at
the first off-screen column). -/
def drawnCols (wrap : Bool) (width x : Nat) (cols : List Nat) : List Nat :=
  if wrap then cols else cols.takeWhile (fun col => decide (x + col < width))

/-- The vram offsets one sprite row with bit pattern `bits` toggles; `top` is
the index of the leading bit (7 for 8-wide rows, 15 for 16-wide rows). -/
def colPositions (wrap : Bool) (width x rowOffset bits top : Nat) (cols : List Nat) :
    List Nat :=
  ((drawnCols wrap width x cols).filter
      (fun col => decide (0 < bits &&& (1 <<< (top - col))))).map
    (colOffset width x rowOffset)

/-- The rows of a sprite the draw loops visit: all of them under the wrapping
quirk, otherwise only those above the bottom edge. -/
def drawnRows (wrap : Bool) (height y : Nat) (rows : List Nat) : List Nat :=
  if wrap then rows else rows.takeWhile (fun row => decide (y + row < height))

/-- The vram offsets one 8-wide sprite row toggles. -/
def rowPositionsN (wrap : Bool) (width height x y : Nat) (m : Memory) (iReg row : Nat) :
    List Nat :=
  colPositions wrap width x (rowOffsetOf width height y row) (m.read (iReg + row)) 7
    (List.range 8)

/-- All vram offsets an `n != 0` draw toggles. -/
def positionsN (wrap : Bool) (width height x y : Nat) (m : Memory) (iReg : Nat)
    (rows : List Nat) : List Nat :=
  (drawnRows wrap height y rows).flatMap (rowPositionsN wrap width height x y m iReg)

/-- The vram offsets one 16-wide sprite row toggles. -/
def rowPositions16 (wrap : Bool) (width height x y : Nat) (m : Memory) (iReg row : Nat) :
    List Nat :=
  colPositions wrap width x (rowOffsetOf width height y row) (bits16 m iReg row) 15
    (List.range 16)

/-- All vram offsets a 16x16 draw toggles. -/
def positions16 (wrap : Bool) (width height x y : Nat) (m : Memory) (iReg : Nat)
    (rows : List Nat) : List Nat :=
  (drawnRows wrap height y rows).flatMap (rowPositions16 wrap width height x y m iReg)

/-- How many times the off-bottom-row branch of the 16x16 draw increments VF:
with wrapping, once per off-bottom row; with clipping, once if the loop meets
an off-bottom row at all (it breaks there). -/
def offEvents (wrap : Bool) (height y : Nat) (rows : List Nat) : Nat :=
  if wrap then (rows.filter (fun r => decide (height ≤ y + r))).length
  else if rows.dropWhile (fun r => decide (y + r < height)) = [] then 0 else 1

/-- Whether a 16-wide sprite row collides: some toggled pixel of that row is
set in the given buffer. -/
def rowClobber16 (wrap : Bool) (width height x y : Nat) (m : Memory) (iReg : Nat)
    (vram : List Bool) (row : Nat) : Bool :=
  (rowPositions16 wrap width height x y m iReg row).any (fun p => vram.getD p false)

/-- How many drawn rows of a 16x16 draw collide against the given buffer. -/
def clobberRows16 (wrap : Bool) (width height x y : Nat) (m : Memory) (iReg : Nat)
    (vram : List Bool) (rows : List Nat) : Nat :=
  ((drawnRows wrap height y rows).filter
    (rowClobber16 wrap width height x y m iReg vram)).length

/-- The x sprite origin of `DRW Vx,Vy,n`: `Vx` reduced modulo the width when it
is off screen. -/
def drwX (c : CPU) (vxi : Nat) : Nat :=
  if c.width ≤ c.vxGet vxi then c.vxGet vxi % c.width else c.vxGet vxi

/-- The y sprite origin of `DRW Vx,Vy,n`. -/
def drwY (c : CPU) (vyi : Nat) : Nat :=
  if c.height ≤ c.vxGet vyi then c.vxGet vyi % c.height else c.vxGet vyi

/-- The wrapped row index the row offset is built from. -/
def rowIdx (height y row : Nat) : Nat :=
  if height ≤ y + row then y + row - height else y + row

/-- A concrete well-formed CPU state (the reset state of `CPU::new`, with an
all-zero memory) used by witnesses and counterexamples below. -/
def baseCPU : CPU :=
  { quirks := Quirks.chip8, clock_speed := 1000000, running := true, hires := false,
    memory := ⟨fun _ => 0⟩, keys := List.replicate 16 false, pc := 0x200, stack := [],
    vx := List.replicate 16 0, dt := 0, st := 0, i := 0, save := List.replicate 8 0,
    width := 64, height := 32, vram := List.replicate (64 * 32) false }

/-- A concrete machine CPU for the claim C2 witness: clock budget of one cycle
per tick, all-zero program memory (so every step executes `SYS 0`). -/
def wCPU : CPU :=
  { baseCPU with clock_speed := 6000, dt := 5, st := 0 }

/-- A concrete 16x16 machine whose screen is fully set, with sprite memory
whose 16-bit rows each have exactly the leading bit set, for the claim C1
counterexample. -/
def cexC1 : CPU :=
  { baseCPU with
    width := 16,
    height := 16,
    vram := List.replicate 256 true,
    memory := ⟨fun a => if a % 2 = 0 then 0x80 else 0⟩,
    i := 0 }

/-- A concrete 16x16 machine with a cleared screen and all-ones sprite memory
for the claim C1 witness. -/
def wDrawCPU : CPU :=
  { baseCPU with
    width := 16,
    height := 16,
    vram := List.replicate 256 false,
    memory := ⟨fun _ => 0xFF⟩,
    i := 0 }

/-! ## Shared helper lemmas and example states -/

/-- Reading a list at a freshly set in-range index yields the new value. -/
theorem getD_set_self {α : Type} (l : List α) (i : Nat) (a d : α) (h : i < l.length) :
    (l.set i a).getD i d = a := by
  simp [List.getD_eq_getElem?_getD, List.getElem?_set, h]

/-- Reading a list at an index other than the one just set is unchanged. -/
theorem getD_set_ne {α : Type} (l : List α) (i j : Nat) (a : α) (d : α) (h : i ≠ j) :
    (l.set i a).getD j d = l.getD j d := by
  simp [List.getD_eq_getElem?_getD, List.getElem?_set, h]

/-! ## Claim C9: the 0x0230 decoder alias -/

/-- Claim C9: the decoder maps opcode 0x0230 to the same instruction as opcode
0x00E0, namely CLS. -/
theorem claim_C9_parse_0230_cls :
    Instruction.parse 0x0230 = some Instruction.CLS ∧
    Instruction.parse 0x00E0 = some Instruction.CLS :=
  ⟨rfl, rfl⟩

/-! ## Claim C7: RET pops the stack, returning 0 on underflow -/

/-- Claim C7: executing RET pops the top of the call stack into pc; on an empty
stack, pc is set to 0 and no fault occurs (the operation is total). -/
theorem claim_C7_ret (c : CPU) (rnd : Nat) :
    (c.stack = [] → (c.execute rnd .RET).pc = 0 ∧ (c.execute rnd .RET).stack = []) ∧
    (∀ v rest, c.stack = v :: rest →
      (c.execute rnd .RET).pc = v ∧ (c.execute rnd .RET).stack = rest) := by
  constructor
  · intro h
    simp [CPU.execute, CPU.pop, h]
  · intro v rest h
    simp [CPU.execute, CPU.pop, h]

/-- Witness for claim C7 at the empty stack and at stack `[0x444]`. -/
theorem claim_C7_ret_witness :
    ((baseCPU.execute 0 .RET).pc = 0 ∧ (baseCPU.execute 0 .RET).stack = []) ∧
    (({ baseCPU with stack := [0x444] }.execute 0 .RET).pc = 0x444 ∧
      ({ baseCPU with stack := [0x444] }.execute 0 .RET).stack = []) :=
  ⟨(claim_C7_ret baseCPU 0).1 rfl,
    (claim_C7_ret { baseCPU with stack := [0x444] } 0).2 0x444 [] rfl⟩

/-! ## Claim C3: JP addr and the self-jump termination signal -/

/-- Claim C3 counterexample: with the (already incremented) pc equal to 0x202,
executing `JP 0x202` — whose target equals the already-incremented pc, which the
claim says must stop the program — leaves `running = true`.  The code only
clears `running` when the target is the pre-increment pc, i.e. `pc = addr + 2`. -/
theorem claim_C3_counterexample :
    ({ baseCPU with pc := 0x202 } : CPU).pc = 0x202 ∧
    ({ baseCPU with pc := 0x202 } : CPU).running = true ∧
    (({ baseCPU with pc := 0x202 } : CPU).execute 0 (.JP_addr 0x202)).pc = 0x202 ∧
    (({ baseCPU with pc := 0x202 } : CPU).execute 0 (.JP_addr 0x202)).running = true :=
  ⟨rfl, rfl, rfl, by decide⟩

/-- Claim C3 (amended): executing JP addr sets pc to addr, and `running` is set
to false exactly when the jump target equals the program counter minus 2 (the
pre-increment address of the jump instruction itself, i.e. `pc = addr + 2` for
the already-incremented pc seen by `execute`). -/
theorem claim_C3_jp_addr (c : CPU) (rnd addr : Nat) :
    (c.execute rnd (.JP_addr addr)).pc = addr ∧
    (c.running = true →
      ((c.execute rnd (.JP_addr addr)).running = false ↔ c.pc = addr + 2)) := by
  refine ⟨rfl, ?_⟩
  intro hr
  by_cases h : c.pc = addr + 2 <;> simp [CPU.execute, h, hr]

/-- Witness for claim C3: a genuine self-jump (instruction at 0x200 jumping to
0x200, pc already incremented to 0x202) stops the program. -/
theorem claim_C3_jp_addr_witness :
    (({ baseCPU with pc := 0x202 } : CPU).execute 0 (.JP_addr 0x200)).pc = 0x200 ∧
    (({ baseCPU with pc := 0x202 } : CPU).execute 0 (.JP_addr 0x200)).running = false := by
  have h := claim_C3_jp_addr { baseCPU with pc := 0x202 } 0 0x200
  exact ⟨h.1, (h.2 rfl).2 rfl⟩

/-! ## Claim C10: keydown and keyup -/

/-- Claim C10: for every key value k (including k > 15), `keydown` sets exactly
the key flag at index `k mod 16` and `keyup` clears exactly that flag; the other
key flags and every other CPU field are unchanged, and no out-of-range access
occurs (the operations are total); the `Chip8` wrappers only forward to the CPU. -/
theorem claim_C10_keys (c : CPU) (k : Nat) (hlen : c.keys.length = 16) :
    ((c.keydown k).keys.getD (k % 16) false = true ∧
      (c.keyup k).keys.getD (k % 16) false = false) ∧
    (∀ j, j < 16 → j ≠ k % 16 →
      (c.keydown k).keys.getD j false = c.keys.getD j false ∧
      (c.keyup k).keys.getD j false = c.keys.getD j false) ∧
    ((c.keydown k).quirks = c.quirks ∧ (c.keydown k).clock_speed = c.clock_speed ∧
      (c.keydown k).running = c.running ∧ (c.keydown k).hires = c.hires ∧
      (c.keydown k).memory = c.memory ∧ (c.keydown k).pc = c.pc ∧
      (c.keydown k).stack = c.stack ∧ (c.keydown k).vx = c.vx ∧
      (c.keydown k).dt = c.dt ∧ (c.keydown k).st = c.st ∧
      (c.keydown k).i = c.i ∧ (c.keydown k).save = c.save ∧
      (c.keydown k).width = c.width ∧ (c.keydown k).height = c.height ∧
      (c.keydown k).vram = c.vram) ∧
    ((c.keyup k).quirks = c.quirks ∧ (c.keyup k).clock_speed = c.clock_speed ∧
      (c.keyup k).running = c.running ∧ (c.keyup k).hires = c.hires ∧
      (c.keyup k).memory = c.memory ∧ (c.keyup k).pc = c.pc ∧
      (c.keyup k).stack = c.stack ∧ (c.keyup k).vx = c.vx ∧
      (c.keyup k).dt = c.dt ∧ (c.keyup k).st = c.st ∧
      (c.keyup k).i = c.i ∧ (c.keyup k).save = c.save ∧
      (c.keyup k).width = c.width ∧ (c.keyup k).height = c.height ∧
      (c.keyup k).vram = c.vram) ∧
    (∀ m : Chip8, (m.keydown k).cpu = m.cpu.keydown k ∧ (m.keydown k).halted = m.halted ∧
      (m.keydown k).breakpoints = m.breakpoints ∧ (m.keyup k).cpu = m.cpu.keyup k ∧
      (m.keyup k).halted = m.halted ∧ (m.keyup k).breakpoints = m.breakpoints) := by
  have hk : k % 16 < c.keys.length := by
    rw [hlen]; exact Nat.mod_lt _ (by omega)
  refine ⟨⟨?_, ?_⟩, ?_, ?_, ?_, ?_⟩
  · exact getD_set_self _ _ _ _ hk
  · exact getD_set_self _ _ _ _ hk
  · intro j _ hj
    exact ⟨getD_set_ne _ _ _ _ _ (fun h => hj h.symm),
      getD_set_ne _ _ _ _ _ (fun h => hj h.symm)⟩
  · exact ⟨rfl, rfl, rfl, rfl, rfl, rfl, rfl, rfl, rfl, rfl, rfl, rfl, rfl, rfl, rfl⟩
  · exact ⟨rfl, rfl, rfl, rfl, rfl, rfl, rfl, rfl, rfl, rfl, rfl, rfl, rfl, rfl, rfl⟩
  · intro m
    exact ⟨rfl, rfl, rfl, rfl, rfl, rfl⟩

/-- Witness for claim C10 at the out-of-range key value 0x37 (55 mod 16 = 7). -/
theorem claim_C10_keys_witness :
    ((baseCPU.keydown 0x37).keys.getD 7 false = true ∧
      (baseCPU.keyup 0x37).keys.getD 7 false = false) ∧
    ((baseCPU.keydown 0x37).keys.getD 3 false = baseCPU.keys.getD 3 false) ∧
    (baseCPU.keydown 0x37).vram = baseCPU.vram := by
  have h := claim_C10_keys baseCPU 0x37 rfl
  exact ⟨h.1, (h.2.1 3 (by decide) (by decide)).1,
    h.2.2.1.2.2.2.2.2.2.2.2.2.2.2.2.2.2⟩

/-! ## Claim C5: ADD Vx,Vy -/

/-- Claim C5 counterexample: ADD V15,V2 with V15 = 200 and V2 = 100.  The claim
says (200+100) mod 256 = 44 is stored in Vx — here Vx is VF — but the carry
flag write overwrites it, leaving VF = 1. -/
theorem claim_C5_counterexample :
    (({ baseCPU with vx := ((List.replicate 16 0).set 15 200).set 2 100 } : CPU).execute 0
        (.ADD_Vx_Vy 15 2)).vxGet 15 = 1 ∧
    (200 + 100) % 256 = 44 ∧ (1 : Nat) ≠ 44 := by
  decide

/-- Claim C5 (amended): for x ≠ 15, ADD Vx,Vy stores (a+b) mod 256 into Vx, and
for every x VF is set to 1 iff a+b > 255 and to 0 otherwise (when x = 15 the
flag write overwrites the stored sum). -/
theorem claim_C5_add_vx_vy (c : CPU) (rnd x y : Nat) (hx : x < 16)
    (hlen : c.vx.length = 16) :
    (x ≠ 15 →
      (c.execute rnd (.ADD_Vx_Vy x y)).vxGet x = (c.vxGet x + c.vxGet y) % 256) ∧
    (c.execute rnd (.ADD_Vx_Vy x y)).vxGet 15 =
      (if 255 < c.vxGet x + c.vxGet y then 1 else 0) := by
  constructor
  · intro hx15
    show ((c.vx.set x ((c.vxGet x + c.vxGet y) % 256)).set 15 _).getD x 0 = _
    rw [getD_set_ne _ _ _ _ _ (fun h => hx15 h.symm),
      getD_set_self _ _ _ _ (by rw [hlen]; exact hx)]
  · show ((c.vx.set x ((c.vxGet x + c.vxGet y) % 256)).set 15 _).getD 15 0 = _
    rw [getD_set_self _ _ _ _ (by rw [List.length_set, hlen]; omega)]

/-- Witness for claim C5 with x = 2, y = 3, V2 = 200, V3 = 100. -/
theorem claim_C5_add_vx_vy_witness :
    (({ baseCPU with vx := ((List.replicate 16 0).set 2 200).set 3 100 } : CPU).execute 0
        (.ADD_Vx_Vy 2 3)).vxGet 2 = 44 ∧
    (({ baseCPU with vx := ((List.replicate 16 0).set 2 200).set 3 100 } : CPU).execute 0
        (.ADD_Vx_Vy 2 3)).vxGet 15 = 1 := by
  have h := claim_C5_add_vx_vy
    { baseCPU with vx := ((List.replicate 16 0).set 2 200).set 3 100 } 0 2 3
    (by decide) (by decide)
  refine ⟨?_, ?_⟩
  · rw [h.1 (by decide)]; decide
  · rw [h.2]; decide

/-! ## Claim C4: SHR and SHL under the shifting quirk -/

/-- Claim C4 counterexample: SHR V15,V2 with V2 = 4 and `shifting = false`.
The claim says Vx — here VF — receives V2 shifted right, i.e. 2, but the
shifted-out-bit write overwrites it with 0. -/
theorem claim_C4_counterexample :
    (({ baseCPU with vx := (List.replicate 16 0).set 2 4 } : CPU).execute 0
        (.SHR_Vx_Vy 15 2)).vxGet 15 = 0 ∧
    (4 : Nat) / 2 = 2 ∧ (0 : Nat) ≠ 2 := by
  decide

/-- For bytes, the test the source uses for the top bit agrees with division
by 128. -/
theorem top_bit_as_div (v : Nat) (hv : v < 256) :
    (if 0 < v &&& 128 then (1 : Nat) else 0) = v / 128 := by
  revert hv
  revert v
  decide

/-- For any value, the test the source uses for the low bit agrees with the
remainder mod 2. -/
theorem low_bit_as_mod (v : Nat) :
    (if 0 < v &&& 1 then (1 : Nat) else 0) = v % 2 := by
  rw [Nat.and_one_is_mod]
  rcases Nat.mod_two_eq_zero_or_one v with h | h <;> simp [h]

/-- Unfolding of SHR with the shifting quirk off: Vy is first copied into Vx. -/
theorem execute_SHR_noquirk (c : CPU) (rnd x y : Nat) (hq : c.quirks.shifting = false) :
    (c.execute rnd (.SHR_Vx_Vy x y)).vx =
      ((c.vx.set x (c.vxGet y)).set x ((c.vx.set x (c.vxGet y)).getD x 0 >>> 1)).set 15
        (if 0 < (c.vx.set x (c.vxGet y)).getD x 0 &&& 1 then 1 else 0) := by
  simp [CPU.execute, hq]

/-- Unfolding of SHR with the shifting quirk on: Vx is shifted in place. -/
theorem execute_SHR_quirk (c : CPU) (rnd x y : Nat) (hq : c.quirks.shifting = true) :
    (c.execute rnd (.SHR_Vx_Vy x y)).vx =
      (c.vx.set x (c.vx.getD x 0 >>> 1)).set 15
        (if 0 < c.vx.getD x 0 &&& 1 then 1 else 0) := by
  simp [CPU.execute, hq]

/-- Unfolding of SHL with the shifting quirk off. -/
theorem execute_SHL_noquirk (c : CPU) (rnd x y : Nat) (hq : c.quirks.shifting = false) :
    (c.execute rnd (.SHL_Vx_Vy x y)).vx =
      ((c.vx.set x (c.vxGet y)).set x ((c.vx.set x (c.vxGet y)).getD x 0 <<< 1 % 256)).set 15
        (if 0 < (c.vx.set x (c.vxGet y)).getD x 0 &&& 128 then 1 else 0) := by
  simp [CPU.execute, hq]

/-- Unfolding of SHL with the shifting quirk on. -/
theorem execute_SHL_quirk (c : CPU) (rnd x y : Nat) (hq : c.quirks.shifting = true) :
    (c.execute rnd (.SHL_Vx_Vy x y)).vx =
      (c.vx.set x (c.vx.getD x 0 <<< 1 % 256)).set 15
        (if 0 < c.vx.getD x 0 &&& 128 then 1 else 0) := by
  simp [CPU.execute, hq]

/-- Claim C4 (amended): with `shifting = false`, the Vx result of SHR (resp.
SHL) derives from Vy's pre-shift value shifted right (resp. left, truncated to
8 bits) — provided x is not 15; with `shifting = true` it derives from Vx's own
pre-shift value under the same proviso; in all cases VF equals the bit shifted
out (when x = 15 that flag write overwrites the shift result). -/
theorem claim_C4_shifts (c : CPU) (rnd x y : Nat) (hx : x < 16)
    (hlen : c.vx.length = 16) (ha : c.vxGet x < 256) (hb : c.vxGet y < 256) :
    (c.quirks.shifting = false →
      (x ≠ 15 → (c.execute rnd (.SHR_Vx_Vy x y)).vxGet x = c.vxGet y / 2) ∧
      (c.execute rnd (.SHR_Vx_Vy x y)).vxGet 15 = c.vxGet y % 2 ∧
      (x ≠ 15 → (c.execute rnd (.SHL_Vx_Vy x y)).vxGet x = c.vxGet y * 2 % 256) ∧
      (c.execute rnd (.SHL_Vx_Vy x y)).vxGet 15 = c.vxGet y / 128) ∧
    (c.quirks.shifting = true →
      (x ≠ 15 → (c.execute rnd (.SHR_Vx_Vy x y)).vxGet x = c.vxGet x / 2) ∧
      (c.execute rnd (.SHR_Vx_Vy x y)).vxGet 15 = c.vxGet x % 2 ∧
      (x ≠ 15 → (c.execute rnd (.SHL_Vx_Vy x y)).vxGet x = c.vxGet x * 2 % 256) ∧
      (c.execute rnd (.SHL_Vx_Vy x y)).vxGet 15 = c.vxGet x / 128) := by
  have hx' : x < c.vx.length := by rw [hlen]; exact hx
  have h15 : 15 < (c.vx.set x (c.vxGet y)).length := by rw [List.length_set, hlen]; omega
  have h15' : 15 < c.vx.length := by rw [hlen]; omega
  have hgety : (c.vx.set x (c.vxGet y)).getD x 0 = c.vxGet y := getD_set_self _ _ _ _ hx'
  constructor
  · intro hq
    refine ⟨?_, ?_, ?_, ?_⟩
    · intro hx15
      simp only [CPU.vxGet]
      rw [execute_SHR_noquirk c rnd x y hq]
      rw [getD_set_ne _ _ _ _ _ (fun h => hx15 h.symm), List.set_set,
        getD_set_self _ _ _ _ hx', hgety, Nat.shiftRight_eq_div_pow]
      simp [CPU.vxGet]
    · simp only [CPU.vxGet]
      rw [execute_SHR_noquirk c rnd x y hq]
      rw [getD_set_self _ _ _ _ (by rw [List.length_set]; exact h15), hgety,
        low_bit_as_mod]
      simp [CPU.vxGet]
    · intro hx15
      simp only [CPU.vxGet]
      rw [execute_SHL_noquirk c rnd x y hq]
      rw [getD_set_ne _ _ _ _ _ (fun h => hx15 h.symm), List.set_set,
        getD_set_self _ _ _ _ hx', hgety, Nat.shiftLeft_eq]
      simp [CPU.vxGet]
    · simp only [CPU.vxGet]
      rw [execute_SHL_noquirk c rnd x y hq]
      rw [getD_set_self _ _ _ _ (by rw [List.length_set]; exact h15), hgety,
        top_bit_as_div _ hb]
      simp [CPU.vxGet]
  · intro hq
    have ha2 : c.vx.getD x 0 < 256 := ha
    refine ⟨?_, ?_, ?_, ?_⟩
    · intro hx15
      simp only [CPU.vxGet]
      rw [execute_SHR_quirk c rnd x y hq]
      rw [getD_set_ne _ _ _ _ _ (fun h => hx15 h.symm),
        getD_set_self _ _ _ _ hx', Nat.shiftRight_eq_div_pow]
    · simp only [CPU.vxGet]
      rw [execute_SHR_quirk c rnd x y hq]
      rw [getD_set_self _ _ _ _ (by rw [List.length_set]; exact h15'), low_bit_as_mod]
    · intro hx15
      simp only [CPU.vxGet]
      rw [execute_SHL_quirk c rnd x y hq]
      rw [getD_set_ne _ _ _ _ _ (fun h => hx15 h.symm),
        getD_set_self _ _ _ _ hx', Nat.shiftLeft_eq]
    · simp only [CPU.vxGet]
      rw [execute_SHL_quirk c rnd x y hq]
      rw [getD_set_self _ _ _ _ (by rw [List.length_set]; exact h15'),
        top_bit_as_div _ ha2]

/-- Witness for claim C4: V2 = 5 under both quirk settings (x = 0, y = 2). -/
theorem claim_C4_shifts_witness :
    (({ baseCPU with vx := (List.replicate 16 0).set 2 5 } : CPU).execute 0
        (.SHR_Vx_Vy 0 2)).vxGet 0 = 2 ∧
    (({ baseCPU with vx := (List.replicate 16 0).set 2 5 } : CPU).execute 0
        (.SHR_Vx_Vy 0 2)).vxGet 15 = 1 := by
  have h := claim_C4_shifts { baseCPU with vx := (List.replicate 16 0).set 2 5 } 0 0 2
    (by decide) (by decide) (by decide) (by decide)
  refine ⟨?_, ?_⟩
  · rw [(h.1 rfl).1 (by decide)]; decide
  · rw [(h.1 rfl).2.1]; decide

/-! ## Claim C6: 12-bit masking of the index register -/

/-- Claim C6 counterexample: with I = 0x0fff and the memory quirk set (the
chip8 preset), a block store `LD [I],V0` advances I to 0x1000, which exceeds
the 12-bit range the claim asserts. -/
theorem claim_C6_counterexample :
    (({ baseCPU with i := 0x0fff } : CPU).execute 0 (.LD_iI_Vx 0)).i = 0x1000 ∧
    ¬ (({ baseCPU with i := 0x0fff } : CPU).execute 0 (.LD_iI_Vx 0)).i ≤ 0x0fff := by
  decide

/-- The block-store fold of `LD [I],Vx` only changes memory, leaving the index
register and the quirks untouched. -/
theorem foldl_store_fields (l : List Nat) (c : CPU) :
    ((l.foldl (fun acc k =>
      { acc with memory := acc.memory.write (acc.i + k) (acc.vxGet k) }) c).i = c.i ∧
     (l.foldl (fun acc k =>
      { acc with memory := acc.memory.write (acc.i + k) (acc.vxGet k) }) c).quirks = c.quirks) := by
  induction l generalizing c with
  | nil => exact ⟨rfl, rfl⟩
  | cons a t ih => exact ih _

/-- The block-load fold of `LD Vx,[I]` only changes registers, leaving the
index register and the quirks untouched. -/
theorem foldl_load_fields (l : List Nat) (c : CPU) :
    ((l.foldl (fun acc k =>
      { acc with vx := acc.vx.set k (acc.memory.read (acc.i + k)) }) c).i = c.i ∧
     (l.foldl (fun acc k =>
      { acc with vx := acc.vx.set k (acc.memory.read (acc.i + k)) }) c).quirks = c.quirks) := by
  induction l generalizing c with
  | nil => exact ⟨rfl, rfl⟩
  | cons a t ih => exact ih _

/-- Claim C6 (amended): ADD I,Vx sets VF = 1 iff the 16-bit sum exceeds 0x0fff
and masks I to 12 bits regardless; the block load/store instructions under the
memory quirk advance I by x+1 with no 12-bit mask, so I can leave the 12-bit
range there. -/
theorem claim_C6_index_mask (c : CPU) (rnd x : Nat) (hlen : c.vx.length = 16) :
    ((c.execute rnd (.ADD_I_Vx x)).i ≤ 0x0fff ∧
      (c.execute rnd (.ADD_I_Vx x)).vxGet 15 =
        (if 0x0fff < (c.i + c.vxGet x) % 65536 then 1 else 0)) ∧
    (c.quirks.memory = true →
      (c.execute rnd (.LD_iI_Vx x)).i = (c.i + x + 1) % 65536 ∧
      (c.execute rnd (.LD_Vx_iI x)).i = (c.i + x + 1) % 65536) := by
  constructor
  · constructor
    · show (c.i + c.vxGet x) % 65536 % 4096 ≤ 0x0fff
      have := Nat.mod_lt ((c.i + c.vxGet x) % 65536) (show 0 < 4096 by omega)
      omega
    · show (c.vx.set 15 _).getD 15 0 = _
      rw [getD_set_self _ _ _ _ (by rw [hlen]; omega)]
  · intro hmem
    constructor
    · simp only [CPU.execute]
      rw [(foldl_store_fields (List.range (x + 1)) c).2, hmem]
      simp [(foldl_store_fields (List.range (x + 1)) c).1]
    · simp only [CPU.execute]
      rw [(foldl_load_fields (List.range (x + 1)) c).2, hmem]
      simp [(foldl_load_fields (List.range (x + 1)) c).1]

/-- Witness for claim C6 with I = 0x0ffe, x = 3, V3 = 5 on the chip8 preset. -/
theorem claim_C6_index_mask_witness :
    (({ baseCPU with i := 0x0ffe, vx := (List.replicate 16 0).set 3 5 } : CPU).execute 0
        (.ADD_I_Vx 3)).i ≤ 0x0fff ∧
    (({ baseCPU with i := 0x0ffe, vx := (List.replicate 16 0).set 3 5 } : CPU).execute 0
        (.ADD_I_Vx 3)).vxGet 15 = 1 ∧
    (({ baseCPU with i := 0x0ffe, vx := (List.replicate 16 0).set 3 5 } : CPU).execute 0
        (.LD_iI_Vx 3)).i = 0x1002 := by
  have h := claim_C6_index_mask
    { baseCPU with i := 0x0ffe, vx := (List.replicate 16 0).set 3 5 } 0 3 (by decide)
  refine ⟨h.1.1, ?_, ?_⟩
  · rw [h.1.2]; decide
  · rw [(h.2 rfl).1]; decide


/-! ## Claim C8: LORES and HIRES -/

/-- The model of `Vec::resize` produces a buffer of exactly the requested
length. -/
theorem listResize_length (l : List Bool) (n : Nat) : (listResize l n).length = n := by
  unfold listResize
  split
  · simp
    omega
  · simp
    omega

/-- Pointwise contents of the model of `Vec::resize`: the prefix of the old
buffer is preserved and newly exposed cells are false. -/
theorem listResize_getD (l : List Bool) (n j : Nat) (hj : j < n) :
    (listResize l n).getD j false = if j < l.length then l.getD j false else false := by
  unfold listResize
  split
  · rename_i h
    rw [List.getD_eq_getElem?_getD, List.getElem?_take, if_pos hj, if_pos (by omega),
      List.getD_eq_getElem?_getD]
  · rename_i h
    rw [List.getD_eq_getElem?_getD, List.getElem?_append]
    by_cases hl : j < l.length
    · rw [if_pos hl, if_pos hl, List.getD_eq_getElem?_getD]
    · rw [if_neg hl, if_neg hl, List.getElem?_replicate, if_pos (by omega)]
      rfl

/-- Unfolding of HIRES on a vram-updated base state. -/
theorem execute_HIRES_vram (v : List Bool) (rnd : Nat) :
    (({ baseCPU with vram := v } : CPU).execute rnd .HIRES).vram =
      listResize v (128 * 64) := rfl

/-- The vram field of a vram-updated base state. -/
theorem vram_of_with (v : List Bool) : ({ baseCPU with vram := v } : CPU).vram = v := rfl

/-- Claim C8 counterexample: executing HIRES on a 64x32 machine whose buffer is
all set leaves pixel 0 set — `Vec::resize` keeps the prefix of the old buffer,
so prior contents are preserved rather than cleared. -/
theorem claim_C8_counterexample :
    (({ baseCPU with vram := List.replicate 2048 true } : CPU).execute 0
        .HIRES).vram.getD 0 false = true ∧
    ({ baseCPU with vram := List.replicate 2048 true } : CPU).vram.length = 64 * 32 := by
  constructor
  · rw [execute_HIRES_vram,
      listResize_getD (List.replicate 2048 true) (128 * 64) 0 (by omega),
      List.length_replicate, if_pos (by omega)]
    rfl
  · rw [vram_of_with, List.length_replicate]

/-- Claim C8 (amended): LORES (resp. HIRES) sets (width, height) to (64, 32)
(resp. (128, 64)), clears (resp. sets) the hires flag, and resizes the video
buffer so that its length is width*height; the resize keeps the prefix of the
old buffer that still fits and fills newly exposed cells with false — prior
contents within the surviving prefix are preserved, not cleared. -/
theorem claim_C8_lores_hires (c : CPU) (rnd : Nat) :
    ((c.execute rnd .LORES).width = 64 ∧ (c.execute rnd .LORES).height = 32 ∧
      (c.execute rnd .LORES).hires = false ∧
      (c.execute rnd .LORES).vram.length =
        (c.execute rnd .LORES).width * (c.execute rnd .LORES).height ∧
      (∀ j, j < 64 * 32 → (c.execute rnd .LORES).vram.getD j false =
        if j < c.vram.length then c.vram.getD j false else false)) ∧
    ((c.execute rnd .HIRES).width = 128 ∧ (c.execute rnd .HIRES).height = 64 ∧
      (c.execute rnd .HIRES).hires = true ∧
      (c.execute rnd .HIRES).vram.length =
        (c.execute rnd .HIRES).width * (c.execute rnd .HIRES).height ∧
      (∀ j, j < 128 * 64 → (c.execute rnd .HIRES).vram.getD j false =
        if j < c.vram.length then c.vram.getD j false else false)) := by
  refine ⟨⟨rfl, rfl, rfl, ?_, ?_⟩, ⟨rfl, rfl, rfl, ?_, ?_⟩⟩
  · exact listResize_length c.vram (64 * 32)
  · intro j hj
    exact listResize_getD c.vram (64 * 32) j hj
  · exact listResize_length c.vram (128 * 64)
  · intro j hj
    exact listResize_getD c.vram (128 * 64) j hj

/-- Witness for claim C8 on a 64x32 machine with pixel 0 set: after HIRES the
buffer has length 128*64 and pixel 0 is still set. -/
theorem claim_C8_lores_hires_witness :
    (({ baseCPU with vram := true :: List.replicate 2047 false } : CPU).execute 0
        .HIRES).vram.length = 128 * 64 ∧
    (({ baseCPU with vram := true :: List.replicate 2047 false } : CPU).execute 0
        .HIRES).vram.getD 0 false = true := by
  have h := (claim_C8_lores_hires { baseCPU with vram := true :: List.replicate 2047 false } 0).2
  refine ⟨by rw [h.2.2.2.1, h.1, h.2.1], ?_⟩
  rw [h.2.2.2.2 0 (by omega), vram_of_with, List.length_cons, List.length_replicate,
    if_pos (by omega)]
  rfl


/-! ## Claim C2: the tick scheduler, timers and breakpoints -/

/-- Claim C2: for a machine whose CPU is running and which is not halted, a
tick that was not cut short by a breakpoint ends by decrementing dt and st by
one each, floored at zero (Nat truncated subtraction); a step whose post-step
pc is a registered breakpoint stops the burst loop immediately — even under
budget — reporting a hit, and a tick whose loop reports a hit sets `halted`. -/
theorem claim_C2_tick (m : Chip8) (rs : Nat → Nat) (h1 : m.cpu.running = true)
    (h2 : m.halted = false) :
    (∀ c, tickLoop rs m.breakpoints (m.cpu.clock_speed / 6000)
        (m.cpu.clock_speed / 6000 + 1) m.cpu 0 = some (c, false) →
      ∃ m2, m.tick rs = some m2 ∧ m2.halted = false ∧
        m2.cpu.dt = c.dt - 1 ∧ m2.cpu.st = c.st - 1) ∧
    (∀ fuel c cycles c2 used, c.running = true → cycles < m.cpu.clock_speed / 6000 →
      c.step (rs fuel) = some (c2, used) → m.breakpoints.contains c2.pc = true →
      tickLoop rs m.breakpoints (m.cpu.clock_speed / 6000) (fuel + 1) c cycles =
        some (c2, true)) ∧
    (∀ c, tickLoop rs m.breakpoints (m.cpu.clock_speed / 6000)
        (m.cpu.clock_speed / 6000 + 1) m.cpu 0 = some (c, true) →
      ∃ m2, m.tick rs = some m2 ∧ m2.halted = true) := by
  have hguard : ¬ (m.cpu.running = false ∨ m.halted = true) := by
    rw [h1, h2]
    simp
  refine ⟨?_, ?_, ?_⟩
  · intro c hl
    refine ⟨{ m with cpu := c.tick_timers, halted := false }, ?_, rfl, ?_, ?_⟩
    · simp only [Chip8.tick]
      rw [if_neg hguard, hl]
    · show (if 0 < c.dt then c.dt - 1 else c.dt) = c.dt - 1
      split <;> omega
    · show (if 0 < c.st then c.st - 1 else c.st) = c.st - 1
      split <;> omega
  · intro fuel c cycles c2 used hrun hcy hstep hbp
    rw [tickLoop, if_pos ⟨hrun, hcy⟩, hstep]
    simp only [hbp]
    rfl
  · intro c hl
    refine ⟨{ m with cpu := c.tick_timers, halted := true }, ?_, rfl⟩
    simp only [Chip8.tick]
    rw [if_neg hguard, hl]

/-- Witness for claim C2: one tick of the concrete machine without breakpoints
decrements dt from 5 to 4; with a breakpoint at 0x202 the loop stops with a hit
after one step, and the tick reports `halted`. -/
theorem claim_C2_tick_witness :
    (∃ m2, Chip8.tick ⟨wCPU, false, []⟩ (fun _ => 0) = some m2 ∧ m2.halted = false ∧
      m2.cpu.dt = 4 ∧ m2.cpu.st = 0) ∧
    tickLoop (fun _ => 0) [0x202] 1 2 wCPU 0 = some ({ wCPU with pc := 0x202 }, true) ∧
    (∃ m2, Chip8.tick ⟨wCPU, false, [0x202]⟩ (fun _ => 0) = some m2 ∧ m2.halted = true) := by
  refine ⟨?_, ?_, ?_⟩
  · have h := (claim_C2_tick ⟨wCPU, false, []⟩ (fun _ => 0) rfl rfl).1
      { wCPU with pc := 0x202 } rfl
    obtain ⟨m2, e1, e2, e3, e4⟩ := h
    exact ⟨m2, e1, e2, e3.trans rfl, e4.trans rfl⟩
  · exact (claim_C2_tick ⟨wCPU, false, [0x202]⟩ (fun _ => 0) rfl rfl).2.1 1 wCPU 0
      { wCPU with pc := 0x202 } 8 rfl (by decide) rfl rfl
  · have h := (claim_C2_tick ⟨wCPU, false, [0x202]⟩ (fun _ => 0) rfl rfl).2.2
      { wCPU with pc := 0x202 } rfl
    exact h


/-! Lemmas about toggles and positions. -/

/-- Toggling a concatenation is toggling in sequence. -/
theorem applyToggles_append (v : List Bool) (ps qs : List Nat) :
    applyToggles v (ps ++ qs) = applyToggles (applyToggles v ps) qs := by
  induction ps generalizing v with
  | nil => rfl
  | cons p ps ih => rw [List.cons_append, applyToggles, applyToggles, ih]

/-- Toggling preserves the buffer length. -/
theorem applyToggles_length (v : List Bool) (ps : List Nat) :
    (applyToggles v ps).length = v.length := by
  induction ps generalizing v with
  | nil => rfl
  | cons p ps ih => rw [applyToggles, ih, List.length_set]

/-- A cell not in the toggle list is unchanged. -/
theorem applyToggles_getD_not_mem (ps : List Nat) (v : List Bool) (q : Nat) (h : q ∉ ps) :
    (applyToggles v ps).getD q false = v.getD q false := by
  induction ps generalizing v with
  | nil => rfl
  | cons p ps ih =>
    rw [applyToggles, ih _ (fun hq => h (List.mem_cons_of_mem _ hq)),
      getD_set_ne _ _ _ _ _ (fun he => h (List.mem_cons.mpr (Or.inl he.symm)))]

/-- An in-range cell listed once in a duplicate-free toggle list is flipped. -/
theorem applyToggles_getD_mem (ps : List Nat) (v : List Bool) (q : Nat) (hnd : ps.Nodup)
    (hq : q ∈ ps) (hlt : q < v.length) :
    (applyToggles v ps).getD q false = ! v.getD q false := by
  induction ps generalizing v with
  | nil => cases hq
  | cons p ps ih =>
    rw [applyToggles]
    rcases List.mem_cons.mp hq with h | h
    · subst h
      rw [applyToggles_getD_not_mem _ _ _ (List.nodup_cons.mp hnd).1,
        getD_set_self _ _ _ _ hlt]
    · have hpq : p ≠ q := by
        rintro rfl
        exact (List.nodup_cons.mp hnd).1 h
      rw [ih _ (List.nodup_cons.mp hnd).2 h (by rw [List.length_set]; exact hlt),
        getD_set_ne _ _ _ _ _ hpq]

/-- A visited column is one of the candidate columns. -/
theorem mem_drawnCols {wrap : Bool} {width x col : Nat} {cols : List Nat}
    (h : col ∈ drawnCols wrap width x cols) : col ∈ cols := by
  unfold drawnCols at h
  split at h
  · exact h
  · exact (List.takeWhile_sublist _).subset h

/-- Every toggled offset of a row comes from a candidate column. -/
theorem mem_colPositions {wrap : Bool} {width x rowOffset bits top p : Nat}
    {cols : List Nat} (hp : p ∈ colPositions wrap width x rowOffset bits top cols) :
    ∃ col ∈ cols, p = colOffset width x rowOffset col := by
  unfold colPositions at hp
  obtain ⟨col, hcol, he⟩ := List.mem_map.mp hp
  exact ⟨col, mem_drawnCols (List.mem_filter.mp hcol).1, he.symm⟩

/-- The offset of an on-screen column lies inside its row block. -/
theorem colOffset_bounds {width x rowOffset col : Nat} (hx : x < width)
    (hcol : col < width) :
    rowOffset ≤ colOffset width x rowOffset col ∧
      colOffset width x rowOffset col < rowOffset + width := by
  unfold colOffset
  split <;> omega

/-- Distinct on-screen columns of a row toggle distinct offsets. -/
theorem colOffset_inj {width x rowOffset c1 c2 : Nat} (hx : x < width)
    (h1 : c1 < width) (h2 : c2 < width)
    (he : colOffset width x rowOffset c1 = colOffset width x rowOffset c2) : c1 = c2 := by
  unfold colOffset at he
  split at he <;> split at he <;> omega

/-- The toggled offsets of one row are duplicate-free. -/
theorem colPositions_nodup {wrap : Bool} {width x rowOffset bits top : Nat}
    {cols : List Nat} (hx : x < width) (hcols : ∀ col ∈ cols, col < width)
    (hnd : cols.Nodup) :
    (colPositions wrap width x rowOffset bits top cols).Nodup := by
  unfold colPositions
  apply List.Nodup.map_on
  · intro a ha b hb he
    exact colOffset_inj hx (hcols a (mem_drawnCols (List.mem_filter.mp ha).1))
      (hcols b (mem_drawnCols (List.mem_filter.mp hb).1)) he
  · apply List.Nodup.filter
    unfold drawnCols
    split
    · exact hnd
    · exact (List.takeWhile_sublist _).nodup hnd

/-- Every toggled offset of one row lies inside its row block. -/
theorem mem_colPositions_bounds {wrap : Bool} {width x rowOffset bits top p : Nat}
    {cols : List Nat} (hx : x < width) (hcols : ∀ col ∈ cols, col < width)
    (hp : p ∈ colPositions wrap width x rowOffset bits top cols) :
    rowOffset ≤ p ∧ p < rowOffset + width := by
  obtain ⟨col, hcol, rfl⟩ := mem_colPositions hp
  exact colOffset_bounds hx (hcols col hcol)

/-- A column kept by the break test extends the visited columns. -/
theorem drawnCols_cons_keep {wrap : Bool} {width x a : Nat} {cols : List Nat}
    (h : wrap = true ∨ x + a < width) :
    drawnCols wrap width x (a :: cols) = a :: drawnCols wrap width x cols := by
  unfold drawnCols
  cases hw : wrap with
  | true => rfl
  | false =>
    have hxa : x + a < width := by
      rcases h with h | h
      · cases hw ▸ h
      · exact h
    simp only [Bool.false_eq_true, if_false, List.takeWhile_cons, decide_eq_true_eq,
      if_pos hxa]

/-- A column hitting the break test empties the visited columns. -/
theorem drawnCols_cons_break {wrap : Bool} {width x a : Nat} {cols : List Nat}
    (hw : wrap = false) (h : width ≤ x + a) :
    drawnCols wrap width x (a :: cols) = [] := by
  subst hw
  unfold drawnCols
  simp only [Bool.false_eq_true, if_false, List.takeWhile_cons, decide_eq_true_eq,
    if_neg (by omega : ¬ x + a < width)]


/-- Splitting the toggled offsets of a row at a kept column. -/
theorem colPositions_cons_keep {wrap : Bool} {width x rowOffset bits top a : Nat}
    {cols : List Nat} (h : wrap = true ∨ x + a < width) :
    colPositions wrap width x rowOffset bits top (a :: cols) =
      (if 0 < bits &&& (1 <<< (top - a)) then
        colOffset width x rowOffset a :: colPositions wrap width x rowOffset bits top cols
      else colPositions wrap width x rowOffset bits top cols) := by
  unfold colPositions
  rw [drawnCols_cons_keep h, List.filter_cons]
  split
  · rename_i hb
    rw [if_pos (by simpa using hb), List.map_cons]
  · rename_i hb
    rw [if_neg (by simpa using hb)]

/-- The toggled offsets of a row vanish at a breaking column. -/
theorem colPositions_cons_break {wrap : Bool} {width x rowOffset bits top a : Nat}
    {cols : List Nat} (hw : wrap = false) (h : width ≤ x + a) :
    colPositions wrap width x rowOffset bits top (a :: cols) = [] := by
  unfold colPositions
  rw [drawnCols_cons_break hw h]
  rfl

/-- A row with no candidate columns toggles nothing. -/
theorem colPositions_nil {wrap : Bool} {width x rowOffset bits top : Nat} :
    colPositions wrap width x rowOffset bits top [] = [] := by
  unfold colPositions drawnCols
  split <;> rfl

/-- Characterisation of the 8-wide column loop: it toggles exactly the
positions of `colPositions` and sets VF to 1 precisely when one of those
positions is set on entry. -/
theorem drawColsN_spec (wrap : Bool) (width x rowOffset bits : Nat) (hx : x < width)
    (hw8 : 8 ≤ width) :
    ∀ (k a : Nat) (vram : List Bool) (vf : Nat), a + k ≤ 8 →
      (drawColsN wrap width x rowOffset bits (List.range' a k) vram vf).1 =
        applyToggles vram (colPositions wrap width x rowOffset bits 7 (List.range' a k)) ∧
      (drawColsN wrap width x rowOffset bits (List.range' a k) vram vf).2 =
        (if ∃ p ∈ colPositions wrap width x rowOffset bits 7 (List.range' a k),
            vram.getD p false = true then 1 else vf) := by
  intro k
  induction k with
  | zero =>
    intro a vram vf _
    rw [List.range'_zero, colPositions_nil]
    exact ⟨rfl, by rw [if_neg (by rintro ⟨p, hp, -⟩; cases hp)]; rfl⟩
  | succ k ih =>
    intro a vram vf hak
    rw [List.range'_succ, drawColsN]
    by_cases hbr : width ≤ x + a ∧ wrap = false
    · rw [if_pos hbr, colPositions_cons_break hbr.2 hbr.1]
      exact ⟨rfl, by rw [if_neg (by rintro ⟨p, hp, -⟩; cases hp)]⟩
    · rw [if_neg hbr]
      have hkeep : wrap = true ∨ x + a < width := by
        cases hw : wrap with
        | true => exact Or.inl rfl
        | false =>
          refine Or.inr ?_
          by_contra hcon
          exact hbr ⟨by omega, hw⟩
      rw [colPositions_cons_keep hkeep]
      by_cases hbit : 0 < bits &&& (1 <<< (7 - a))
      · rw [if_pos hbit, if_pos hbit]
        have hoffmem : colOffset width x rowOffset a ∉
            colPositions wrap width x rowOffset bits 7 (List.range' (a + 1) k) := by
          intro hmem
          obtain ⟨col, hcol, he⟩ := mem_colPositions hmem
          have hcr := (List.mem_range'_1.mp hcol)
          have : a = col := colOffset_inj hx (by omega) (by omega) he
          omega
        obtain ⟨ih1, ih2⟩ := ih (a + 1)
          (vram.set (colOffset width x rowOffset a)
            (! vram.getD (colOffset width x rowOffset a) false))
          (if vram.getD (colOffset width x rowOffset a) false then 1 else vf) (by omega)
        have hpoint : ∀ p ∈ colPositions wrap width x rowOffset bits 7 (List.range' (a + 1) k),
            (vram.set (colOffset width x rowOffset a)
              (! vram.getD (colOffset width x rowOffset a) false)).getD p false =
              vram.getD p false := by
          intro p hp
          exact getD_set_ne _ _ _ _ _ (fun he => hoffmem (he ▸ hp))
        have hiff : (∃ p ∈ colPositions wrap width x rowOffset bits 7 (List.range' (a + 1) k),
            (vram.set (colOffset width x rowOffset a)
              (! vram.getD (colOffset width x rowOffset a) false)).getD p false = true) ↔
            (∃ p ∈ colPositions wrap width x rowOffset bits 7 (List.range' (a + 1) k),
              vram.getD p false = true) := by
          constructor
          · rintro ⟨p, hp, hv⟩
            exact ⟨p, hp, (hpoint p hp).symm.trans hv⟩
          · rintro ⟨p, hp, hv⟩
            exact ⟨p, hp, (hpoint p hp).trans hv⟩
        refine ⟨ih1, ?_⟩
        rw [ih2]
        by_cases hex : ∃ p ∈ colPositions wrap width x rowOffset bits 7 (List.range' (a + 1) k),
            vram.getD p false = true
        · rw [if_pos (hiff.mpr hex)]
          obtain ⟨p, hp, hv⟩ := hex
          rw [if_pos ⟨p, List.mem_cons_of_mem _ hp, hv⟩]
        · rw [if_neg (fun h => hex (hiff.mp h))]
          by_cases hoffv : vram.getD (colOffset width x rowOffset a) false = true
          · rw [if_pos hoffv, if_pos ⟨_, List.mem_cons_self _ _, hoffv⟩]
          · rw [if_neg hoffv, if_neg ?_]
            rintro ⟨p, hp, hv⟩
            rcases List.mem_cons.mp hp with h | h
            · exact hoffv (h ▸ hv)
            · exact hex ⟨p, h, hv⟩
      · rw [if_neg hbit, if_neg hbit]
        exact ih (a + 1) vram vf (by omega)

/-- Characterisation of the 16-wide column loop: it toggles exactly the
positions of `colPositions` and reports a clobber precisely when the flag was
already set or one of those positions is set on entry. -/
theorem drawCols16_spec (wrap : Bool) (width x rowOffset bits : Nat) (hx : x < width)
    (hw16 : 16 ≤ width) :
    ∀ (k a : Nat) (vram : List Bool) (clobber : Bool), a + k ≤ 16 →
      (drawCols16 wrap width x rowOffset bits (List.range' a k) vram clobber).1 =
        applyToggles vram (colPositions wrap width x rowOffset bits 15 (List.range' a k)) ∧
      ((drawCols16 wrap width x rowOffset bits (List.range' a k) vram clobber).2 = true ↔
        (clobber = true ∨
          ∃ p ∈ colPositions wrap width x rowOffset bits 15 (List.range' a k),
            vram.getD p false = true)) := by
  intro k
  induction k with
  | zero =>
    intro a vram clobber _
    rw [List.range'_zero, colPositions_nil]
    refine ⟨rfl, ?_⟩
    constructor
    · exact fun h => Or.inl h
    · rintro (h | ⟨p, hp, -⟩)
      · exact h
      · cases hp
  | succ k ih =>
    intro a vram clobber hak
    rw [List.range'_succ, drawCols16]
    by_cases hbr : width ≤ x + a ∧ wrap = false
    · rw [if_pos hbr, colPositions_cons_break hbr.2 hbr.1]
      refine ⟨rfl, ?_⟩
      constructor
      · exact fun h => Or.inl h
      · rintro (h | ⟨p, hp, -⟩)
        · exact h
        · cases hp
    · rw [if_neg hbr]
      have hkeep : wrap = true ∨ x + a < width := by
        cases hw : wrap with
        | true => exact Or.inl rfl
        | false =>
          refine Or.inr ?_
          by_contra hcon
          exact hbr ⟨by omega, hw⟩
      rw [colPositions_cons_keep hkeep]
      by_cases hbit : 0 < bits &&& (1 <<< (15 - a))
      · rw [if_pos hbit, if_pos hbit]
        have hoffmem : colOffset width x rowOffset a ∉
            colPositions wrap width x rowOffset bits 15 (List.range' (a + 1) k) := by
          intro hmem
          obtain ⟨col, hcol, he⟩ := mem_colPositions hmem
          have hcr := (List.mem_range'_1.mp hcol)
          have : a = col := colOffset_inj hx (by omega) (by omega) he
          omega
        obtain ⟨ih1, ih2⟩ := ih (a + 1)
          (vram.set (colOffset width x rowOffset a)
            (! vram.getD (colOffset width x rowOffset a) false))
          (if vram.getD (colOffset width x rowOffset a) false then true else clobber)
          (by omega)
        have hpoint : ∀ p ∈ colPositions wrap width x rowOffset bits 15 (List.range' (a + 1) k),
            (vram.set (colOffset width x rowOffset a)
              (! vram.getD (colOffset width x rowOffset a) false)).getD p false =
              vram.getD p false := by
          intro p hp
          exact getD_set_ne _ _ _ _ _ (fun he => hoffmem (he ▸ hp))
        refine ⟨ih1, ?_⟩
        rw [ih2]
        constructor
        · rintro (h | ⟨p, hp, hv⟩)
          · by_cases hoffv : vram.getD (colOffset width x rowOffset a) false = true
            · exact Or.inr ⟨_, List.mem_cons_self _ _, hoffv⟩
            · rw [if_neg hoffv] at h
              exact Or.inl h
          · exact Or.inr ⟨p, List.mem_cons_of_mem _ hp, (hpoint p hp).symm.trans hv⟩
        · rintro (h | ⟨p, hp, hv⟩)
          · by_cases hoffv : vram.getD (colOffset width x rowOffset a) false = true
            · exact Or.inl (by rw [if_pos hoffv])
            · exact Or.inl (by rw [if_neg hoffv]; exact h)
          · rcases List.mem_cons.mp hp with h2 | h2
            · subst h2
              exact Or.inl (by rw [if_pos hv])
            · exact Or.inr ⟨p, h2, (hpoint p h2).trans hv⟩
      · rw [if_neg hbit, if_neg hbit]
        exact ih (a + 1) vram clobber (by omega)


/-- The row offset is the wrapped row index scaled by the width. -/
theorem rowOffsetOf_eq (width height y row : Nat) :
    rowOffsetOf width height y row = width * rowIdx height y row := by
  unfold rowOffsetOf rowIdx
  split <;> rfl

/-- For a sprite row of a draw the wrapped row index is on screen. -/
theorem rowIdx_lt {height y row : Nat} (hy : y < height) (hr : row < 16)
    (hh : 16 ≤ height) : rowIdx height y row < height := by
  unfold rowIdx
  split <;> omega

/-- Distinct sprite rows of one draw land on distinct screen rows. -/
theorem rowIdx_inj {height y r1 r2 : Nat} (hy : y < height) (hh : 16 ≤ height)
    (h1 : r1 < 16) (h2 : r2 < 16) (he : rowIdx height y r1 = rowIdx height y r2) :
    r1 = r2 := by
  unfold rowIdx at he
  split at he <;> split at he <;> omega

/-- The screen blocks of distinct sprite rows are disjoint. -/
theorem rowBlocks_disjoint {width height y r1 r2 p : Nat} (hy : y < height)
    (hh : 16 ≤ height) (h1 : r1 < 16) (h2 : r2 < 16) (hne : r1 ≠ r2)
    (hp1 : rowOffsetOf width height y r1 ≤ p ∧ p < rowOffsetOf width height y r1 + width)
    (hp2 : rowOffsetOf width height y r2 ≤ p ∧ p < rowOffsetOf width height y r2 + width) :
    False := by
  rw [rowOffsetOf_eq] at hp1 hp2
  have key : ∀ i j : Nat, i < j → width * i + width ≤ width * j := by
    intro i j hij
    have h := Nat.mul_le_mul_left width (Nat.succ_le_of_lt hij)
    calc width * i + width = width * (i + 1) := by ring
    _ ≤ width * j := h
  rcases lt_trichotomy (rowIdx height y r1) (rowIdx height y r2) with h | h | h
  · have := key _ _ h
    omega
  · exact hne (rowIdx_inj hy hh h1 h2 h)
  · have := key _ _ h
    omega

/-- A visited row is one of the candidate rows. -/
theorem mem_drawnRows {wrap : Bool} {height y row : Nat} {rows : List Nat}
    (h : row ∈ drawnRows wrap height y rows) : row ∈ rows := by
  unfold drawnRows at h
  split at h
  · exact h
  · exact (List.takeWhile_sublist _).subset h

/-- A row kept by the break test extends the visited rows. -/
theorem drawnRows_cons_keep {wrap : Bool} {height y a : Nat} {rows : List Nat}
    (h : wrap = true ∨ y + a < height) :
    drawnRows wrap height y (a :: rows) = a :: drawnRows wrap height y rows := by
  unfold drawnRows
  cases hw : wrap with
  | true => rfl
  | false =>
    have hya : y + a < height := by
      rcases h with h | h
      · cases hw ▸ h
      · exact h
    simp only [Bool.false_eq_true, if_false, List.takeWhile_cons, decide_eq_true_eq,
      if_pos hya]

/-- A row hitting the break test empties the visited rows. -/
theorem drawnRows_cons_break {wrap : Bool} {height y a : Nat} {rows : List Nat}
    (hw : wrap = false) (h : height ≤ y + a) :
    drawnRows wrap height y (a :: rows) = [] := by
  subst hw
  unfold drawnRows
  simp only [Bool.false_eq_true, if_false, List.takeWhile_cons, decide_eq_true_eq,
    if_neg (by omega : ¬ y + a < height)]

/-- Each toggled offset of an 8-wide row sits inside that row's screen block. -/
theorem mem_rowPositionsN_bounds {wrap : Bool} {width height x y iReg row p : Nat}
    {m : Memory} (hx : x < width) (hw8 : 8 ≤ width)
    (hp : p ∈ rowPositionsN wrap width height x y m iReg row) :
    rowOffsetOf width height y row ≤ p ∧ p < rowOffsetOf width height y row + width := by
  refine mem_colPositions_bounds hx ?_ hp
  intro col hcol
  have := List.mem_range.mp hcol
  omega

/-- Each toggled offset of a 16-wide row sits inside that row's screen block. -/
theorem mem_rowPositions16_bounds {wrap : Bool} {width height x y iReg row p : Nat}
    {m : Memory} (hx : x < width) (hw16 : 16 ≤ width)
    (hp : p ∈ rowPositions16 wrap width height x y m iReg row) :
    rowOffsetOf width height y row ≤ p ∧ p < rowOffsetOf width height y row + width := by
  refine mem_colPositions_bounds hx ?_ hp
  intro col hcol
  have := List.mem_range.mp hcol
  omega

/-- The toggled offsets of an entire `n != 0` draw are duplicate-free. -/
theorem positionsN_nodup {wrap : Bool} {width height x y iReg : Nat} {m : Memory}
    {rows : List Nat} (hx : x < width) (hy : y < height) (hw8 : 8 ≤ width)
    (hh : 16 ≤ height) (hrows : ∀ r ∈ rows, r < 16) (hnd : rows.Nodup) :
    (positionsN wrap width height x y m iReg rows).Nodup := by
  unfold positionsN
  rw [List.nodup_flatMap]
  constructor
  · intro r _
    refine colPositions_nodup hx ?_ (List.nodup_range 8)
    intro col hcol
    have := List.mem_range.mp hcol
    omega
  · have hnd2 : (drawnRows wrap height y rows).Nodup := by
      unfold drawnRows
      split
      · exact hnd
      · exact (List.takeWhile_sublist _).nodup hnd
    refine hnd2.imp_of_mem ?_
    intro r1 r2 hm1 hm2 hne p hp1 hp2
    exact rowBlocks_disjoint hy hh (hrows r1 (mem_drawnRows hm1))
      (hrows r2 (mem_drawnRows hm2)) hne
      (mem_rowPositionsN_bounds hx hw8 hp1) (mem_rowPositionsN_bounds hx hw8 hp2)

/-- The toggled offsets of an entire 16x16 draw are duplicate-free. -/
theorem positions16_nodup {wrap : Bool} {width height x y iReg : Nat} {m : Memory}
    {rows : List Nat} (hx : x < width) (hy : y < height) (hw16 : 16 ≤ width)
    (hh : 16 ≤ height) (hrows : ∀ r ∈ rows, r < 16) (hnd : rows.Nodup) :
    (positions16 wrap width height x y m iReg rows).Nodup := by
  unfold positions16
  rw [List.nodup_flatMap]
  constructor
  · intro r _
    refine colPositions_nodup hx ?_ (List.nodup_range 16)
    intro col hcol
    have := List.mem_range.mp hcol
    omega
  · have hnd2 : (drawnRows wrap height y rows).Nodup := by
      unfold drawnRows
      split
      · exact hnd
      · exact (List.takeWhile_sublist _).nodup hnd
    refine hnd2.imp_of_mem ?_
    intro r1 r2 hm1 hm2 hne p hp1 hp2
    exact rowBlocks_disjoint hy hh (hrows r1 (mem_drawnRows hm1))
      (hrows r2 (mem_drawnRows hm2)) hne
      (mem_rowPositions16_bounds hx hw16 hp1) (mem_rowPositions16_bounds hx hw16 hp2)

/-- Every toggled offset of an `n != 0` draw is inside the buffer bounds. -/
theorem mem_positionsN_lt {wrap : Bool} {width height x y iReg p : Nat} {m : Memory}
    {rows : List Nat} (hx : x < width) (hy : y < height) (hw8 : 8 ≤ width)
    (hh : 16 ≤ height) (hrows : ∀ r ∈ rows, r < 16)
    (hp : p ∈ positionsN wrap width height x y m iReg rows) : p < width * height := by
  obtain ⟨r, hr, hpr⟩ := List.mem_flatMap.mp hp
  have hb := mem_rowPositionsN_bounds hx hw8 hpr
  rw [rowOffsetOf_eq] at hb
  have hidx : rowIdx height y r < height :=
    rowIdx_lt hy (hrows r (mem_drawnRows hr)) hh
  have : width * rowIdx height y r + width ≤ width * height := by
    have h := Nat.mul_le_mul_left width (Nat.succ_le_of_lt hidx)
    calc width * rowIdx height y r + width = width * (rowIdx height y r + 1) := by ring
    _ ≤ width * height := h
  omega

/-- Every toggled offset of a 16x16 draw is inside the buffer bounds. -/
theorem mem_positions16_lt {wrap : Bool} {width height x y iReg p : Nat} {m : Memory}
    {rows : List Nat} (hx : x < width) (hy : y < height) (hw16 : 16 ≤ width)
    (hh : 16 ≤ height) (hrows : ∀ r ∈ rows, r < 16)
    (hp : p ∈ positions16 wrap width height x y m iReg rows) : p < width * height := by
  obtain ⟨r, hr, hpr⟩ := List.mem_flatMap.mp hp
  have hb := mem_rowPositions16_bounds hx hw16 hpr
  rw [rowOffsetOf_eq] at hb
  have hidx : rowIdx height y r < height :=
    rowIdx_lt hy (hrows r (mem_drawnRows hr)) hh
  have : width * rowIdx height y r + width ≤ width * height := by
    have h := Nat.mul_le_mul_left width (Nat.succ_le_of_lt hidx)
    calc width * rowIdx height y r + width = width * (rowIdx height y r + 1) := by ring
    _ ≤ width * height := h
  omega


/-- Congruence for `List.any` under pointwise equal predicates. -/
theorem anyCongr {l : List Nat} {f g : Nat → Bool} (h : ∀ a ∈ l, f a = g a) :
    l.any f = l.any g := by
  induction l with
  | nil => rfl
  | cons a l ih =>
    rw [List.any_cons, List.any_cons, h a (List.mem_cons_self _ _),
      ih (fun b hb => h b (List.mem_cons_of_mem _ hb))]

/-- There are no visited rows in an empty row list. -/
theorem drawnRows_nil {wrap : Bool} {height y : Nat} :
    drawnRows wrap height y [] = [] := by
  unfold drawnRows
  split <;> rfl

/-- An `n != 0` draw with no rows toggles nothing. -/
theorem positionsN_nil {wrap : Bool} {width height x y iReg : Nat} {m : Memory} :
    positionsN wrap width height x y m iReg [] = [] := by
  unfold positionsN
  rw [drawnRows_nil]
  rfl

/-- A 16x16 draw with no rows toggles nothing. -/
theorem positions16_nil {wrap : Bool} {width height x y iReg : Nat} {m : Memory} :
    positions16 wrap width height x y m iReg [] = [] := by
  unfold positions16
  rw [drawnRows_nil]
  rfl

/-- Splitting the toggled offsets of an `n != 0` draw at a kept row. -/
theorem positionsN_cons_keep {wrap : Bool} {width height x y iReg a : Nat} {m : Memory}
    {rows : List Nat} (h : wrap = true ∨ y + a < height) :
    positionsN wrap width height x y m iReg (a :: rows) =
      rowPositionsN wrap width height x y m iReg a ++
        positionsN wrap width height x y m iReg rows := by
  unfold positionsN
  rw [drawnRows_cons_keep h, List.flatMap_cons]

/-- The toggled offsets of an `n != 0` draw vanish at a breaking row. -/
theorem positionsN_cons_break {wrap : Bool} {width height x y iReg a : Nat} {m : Memory}
    {rows : List Nat} (hw : wrap = false) (hya : height ≤ y + a) :
    positionsN wrap width height x y m iReg (a :: rows) = [] := by
  unfold positionsN
  rw [drawnRows_cons_break hw hya]
  rfl

/-- Splitting the toggled offsets of a 16x16 draw at a kept row. -/
theorem positions16_cons_keep {wrap : Bool} {width height x y iReg a : Nat} {m : Memory}
    {rows : List Nat} (h : wrap = true ∨ y + a < height) :
    positions16 wrap width height x y m iReg (a :: rows) =
      rowPositions16 wrap width height x y m iReg a ++
        positions16 wrap width height x y m iReg rows := by
  unfold positions16
  rw [drawnRows_cons_keep h, List.flatMap_cons]

/-- The toggled offsets of a 16x16 draw vanish at a breaking row. -/
theorem positions16_cons_break {wrap : Bool} {width height x y iReg a : Nat} {m : Memory}
    {rows : List Nat} (hw : wrap = false) (hya : height ≤ y + a) :
    positions16 wrap width height x y m iReg (a :: rows) = [] := by
  unfold positions16
  rw [drawnRows_cons_break hw hya]
  rfl

/-- Characterisation of the `n != 0` row loop: it toggles exactly the
positions of `positionsN`, and VF becomes 1 exactly when one of those
positions was set on entry (otherwise VF keeps its incoming value). -/
theorem drawRowsN_spec (wrap : Bool) (width height : Nat) (m : Memory) (iReg x y : Nat)
    (hx : x < width) (hy : y < height) (hw8 : 8 ≤ width) (hh : 16 ≤ height) :
    ∀ (k a : Nat) (vram : List Bool) (vf : Nat), a + k ≤ 16 →
      (drawRowsN wrap width height m iReg x y (List.range' a k) vram vf).1 =
        applyToggles vram (positionsN wrap width height x y m iReg (List.range' a k)) ∧
      (drawRowsN wrap width height m iReg x y (List.range' a k) vram vf).2 =
        (if ∃ p ∈ positionsN wrap width height x y m iReg (List.range' a k),
            vram.getD p false = true then 1 else vf) := by
  intro k
  induction k with
  | zero =>
    intro a vram vf _
    rw [List.range'_zero, positionsN_nil]
    exact ⟨rfl, by rw [if_neg (by rintro ⟨p, hp, -⟩; cases hp)]; rfl⟩
  | succ k ih =>
    intro a vram vf hak
    rw [List.range'_succ, drawRowsN]
    by_cases hbr : height ≤ y + a ∧ wrap = false
    · rw [if_pos hbr, positionsN_cons_break hbr.2 hbr.1]
      exact ⟨rfl, by rw [if_neg (by rintro ⟨p, hp, -⟩; cases hp)]⟩
    · rw [if_neg hbr]
      have hkeep : wrap = true ∨ y + a < height := by
        cases hw : wrap with
        | true => exact Or.inl rfl
        | false =>
          refine Or.inr ?_
          by_contra hcon
          exact hbr ⟨by omega, hw⟩
      rw [positionsN_cons_keep hkeep]
      have hcols := drawColsN_spec wrap width x (rowOffsetOf width height y a)
        (m.read (iReg + a)) hx hw8 8 0 vram vf (by omega)
      rw [← List.range_eq_range'] at hcols
      have hPOSa : colPositions wrap width x (rowOffsetOf width height y a)
          (m.read (iReg + a)) 7 (List.range 8) =
          rowPositionsN wrap width height x y m iReg a := rfl
      rw [hPOSa] at hcols
      obtain ⟨hc1, hc2⟩ := hcols
      have hih := ih (a + 1)
        (drawColsN wrap width x (rowOffsetOf width height y a) (m.read (iReg + a))
          (List.range 8) vram vf).1
        (drawColsN wrap width x (rowOffsetOf width height y a) (m.read (iReg + a))
          (List.range 8) vram vf).2 (by omega)
      obtain ⟨hi1, hi2⟩ := hih
      have hdisj : ∀ p ∈ positionsN wrap width height x y m iReg (List.range' (a + 1) k),
          p ∉ rowPositionsN wrap width height x y m iReg a := by
        intro p hp hpa
        obtain ⟨r, hr, hpr⟩ := List.mem_flatMap.mp hp
        have hrge : a + 1 ≤ r ∧ r < a + 1 + k :=
          List.mem_range'_1.mp (mem_drawnRows hr)
        exact rowBlocks_disjoint hy hh (by omega) (by omega) (by omega)
          (mem_rowPositionsN_bounds hx hw8 hpr) (mem_rowPositionsN_bounds hx hw8 hpa)
      have hpoint : ∀ p ∈ positionsN wrap width height x y m iReg (List.range' (a + 1) k),
          (drawColsN wrap width x (rowOffsetOf width height y a) (m.read (iReg + a))
            (List.range 8) vram vf).1.getD p false = vram.getD p false := by
        intro p hp
        rw [hc1]
        exact applyToggles_getD_not_mem _ _ _ (hdisj p hp)
      constructor
      · rw [hi1, hc1, ← applyToggles_append]
      · rw [hi2, hc2]
        by_cases hex : ∃ p ∈ positionsN wrap width height x y m iReg (List.range' (a + 1) k),
            vram.getD p false = true
        · obtain ⟨p, hp, hv⟩ := hex
          rw [if_pos ⟨p, hp, (hpoint p hp).trans hv⟩,
            if_pos ⟨p, List.mem_append_right _ hp, hv⟩]
        · rw [if_neg (fun h => hex (by
            obtain ⟨p, hp, hv⟩ := h
            exact ⟨p, hp, (hpoint p hp).symm.trans hv⟩))]
          by_cases hexa : ∃ p ∈ rowPositionsN wrap width height x y m iReg a,
              vram.getD p false = true
          · obtain ⟨p, hp, hv⟩ := hexa
            rw [if_pos ⟨p, hp, hv⟩, if_pos ⟨p, List.mem_append_left _ hp, hv⟩]
          · rw [if_neg hexa, if_neg ?_]
            rintro ⟨p, hp, hv⟩
            rcases List.mem_append.mp hp with h | h
            · exact hexa ⟨p, h, hv⟩
            · exact hex ⟨p, h, hv⟩


/-- Off-bottom events of the 16x16 row loop at a kept row. -/
theorem offEvents_cons_keep {wrap : Bool} {height y a : Nat} {rows : List Nat}
    (h : wrap = true ∨ y + a < height) :
    offEvents wrap height y (a :: rows) =
      (if height ≤ y + a then 1 else 0) + offEvents wrap height y rows := by
  unfold offEvents
  cases hw : wrap with
  | true =>
    rw [if_pos rfl, if_pos rfl, List.filter_cons]
    by_cases hya : height ≤ y + a
    · rw [if_pos (by simpa using hya), if_pos hya, List.length_cons]
      omega
    · rw [if_neg (by simpa using hya), if_neg hya]
      omega
  | false =>
    have hya : y + a < height := by
      rcases h with h | h
      · cases hw ▸ h
      · exact h
    simp only [Bool.false_eq_true, if_false, List.dropWhile_cons, decide_eq_true_eq,
      if_pos hya, if_neg (by omega : ¬ height ≤ y + a)]
    omega

/-- Off-bottom events of the 16x16 row loop at a breaking row: exactly one. -/
theorem offEvents_cons_break {wrap : Bool} {height y a : Nat} {rows : List Nat}
    (hw : wrap = false) (hya : height ≤ y + a) :
    offEvents wrap height y (a :: rows) = 1 := by
  subst hw
  unfold offEvents
  simp only [Bool.false_eq_true, if_false, List.dropWhile_cons, decide_eq_true_eq,
    if_neg (by omega : ¬ y + a < height)]
  rw [if_neg (by simp)]

/-- There are no off-bottom events in an empty row list. -/
theorem offEvents_nil {wrap : Bool} {height y : Nat} :
    offEvents wrap height y [] = 0 := by
  unfold offEvents
  split
  · rfl
  · rw [List.dropWhile_nil, if_pos rfl]

/-- There are no clobbered rows in an empty row list. -/
theorem clobberRows16_nil {wrap : Bool} {width height x y iReg : Nat} {m : Memory}
    {vram : List Bool} :
    clobberRows16 wrap width height x y m iReg vram [] = 0 := by
  unfold clobberRows16
  rw [drawnRows_nil]
  rfl

/-- Clobbered-row count of the 16x16 draw at a kept row. -/
theorem clobberRows16_cons_keep {wrap : Bool} {width height x y iReg a : Nat}
    {m : Memory} {vram : List Bool} {rows : List Nat}
    (h : wrap = true ∨ y + a < height) :
    clobberRows16 wrap width height x y m iReg vram (a :: rows) =
      (if rowClobber16 wrap width height x y m iReg vram a = true then 1 else 0) +
        clobberRows16 wrap width height x y m iReg vram rows := by
  unfold clobberRows16
  rw [drawnRows_cons_keep h, List.filter_cons]
  by_cases hc : rowClobber16 wrap width height x y m iReg vram a = true
  · rw [if_pos hc, if_pos hc, List.length_cons]
    omega
  · rw [if_neg hc, if_neg hc]
    omega

/-- Clobbered-row count of the 16x16 draw at a breaking row: zero. -/
theorem clobberRows16_cons_break {wrap : Bool} {width height x y iReg a : Nat}
    {m : Memory} {vram : List Bool} {rows : List Nat}
    (hw : wrap = false) (hya : height ≤ y + a) :
    clobberRows16 wrap width height x y m iReg vram (a :: rows) = 0 := by
  unfold clobberRows16
  rw [drawnRows_cons_break hw hya]
  rfl

/-- Clobbered-row counts agree on buffers that agree at the toggled offsets of
the visited rows. -/
theorem clobberRows16_congr {wrap : Bool} {width height x y iReg : Nat} {m : Memory}
    {v1 v2 : List Bool} {rows : List Nat}
    (h : ∀ r ∈ drawnRows wrap height y rows,
      ∀ p ∈ rowPositions16 wrap width height x y m iReg r,
        v1.getD p false = v2.getD p false) :
    clobberRows16 wrap width height x y m iReg v1 rows =
      clobberRows16 wrap width height x y m iReg v2 rows := by
  unfold clobberRows16
  rw [List.filter_congr]
  intro r hr
  unfold rowClobber16
  exact anyCongr (fun p hp => h r hr p hp)

/-- Characterisation of the 16x16 row loop: it toggles exactly the positions
of `positions16`, and adds to the incoming VF one unit per off-bottom event
plus one unit per visited row that collides against the entry buffer. -/
theorem drawRows16_spec (wrap : Bool) (width height : Nat) (m : Memory) (iReg x y : Nat)
    (hx : x < width) (hy : y < height) (hw16 : 16 ≤ width) (hh : 16 ≤ height) :
    ∀ (k a : Nat) (vram : List Bool) (vf : Nat), a + k ≤ 16 → vf + 2 * k ≤ 255 →
      (drawRows16 wrap width height m iReg x y (List.range' a k) vram vf).1 =
        applyToggles vram (positions16 wrap width height x y m iReg (List.range' a k)) ∧
      (drawRows16 wrap width height m iReg x y (List.range' a k) vram vf).2 =
        vf + offEvents wrap height y (List.range' a k) +
          clobberRows16 wrap width height x y m iReg vram (List.range' a k) := by
  intro k
  induction k with
  | zero =>
    intro a vram vf _ _
    rw [List.range'_zero, positions16_nil, offEvents_nil, clobberRows16_nil]
    refine ⟨rfl, ?_⟩
    show vf = vf + 0 + 0
    omega
  | succ k ih =>
    intro a vram vf hak hvf
    rw [List.range'_succ]
    simp only [drawRows16]
    by_cases hbr : height ≤ y + a ∧ wrap = false
    · rw [if_pos hbr, positions16_cons_break hbr.2 hbr.1,
        offEvents_cons_break hbr.2 hbr.1, clobberRows16_cons_break hbr.2 hbr.1,
        if_pos hbr.1, Nat.mod_eq_of_lt (by omega)]
      exact ⟨rfl, by omega⟩
    · rw [if_neg hbr]
      have hkeep : wrap = true ∨ y + a < height := by
        cases hw : wrap with
        | true => exact Or.inl rfl
        | false =>
          refine Or.inr ?_
          by_contra hcon
          exact hbr ⟨by omega, hw⟩
      have hcols := drawCols16_spec wrap width x (rowOffsetOf width height y a)
        (bits16 m iReg a) hx hw16 16 0 vram false (by omega)
      rw [← List.range_eq_range'] at hcols
      have hPOSa : colPositions wrap width x (rowOffsetOf width height y a)
          (bits16 m iReg a) 15 (List.range 16) =
          rowPositions16 wrap width height x y m iReg a := rfl
      rw [hPOSa] at hcols
      obtain ⟨hc1, hc2⟩ := hcols
      have hclob : (drawCols16 wrap width x (rowOffsetOf width height y a)
          (bits16 m iReg a) (List.range 16) vram false).2 =
          rowClobber16 wrap width height x y m iReg vram a := by
        by_cases hex : ∃ p ∈ rowPositions16 wrap width height x y m iReg a,
            vram.getD p false = true
        · rw [hc2.mpr (Or.inr hex)]
          unfold rowClobber16
          exact (List.any_eq_true.mpr hex).symm
        · have h1 : (drawCols16 wrap width x (rowOffsetOf width height y a)
              (bits16 m iReg a) (List.range 16) vram false).2 ≠ true := by
            intro h
            rcases hc2.mp h with h | h
            · cases h
            · exact hex h
          have h2 : rowClobber16 wrap width height x y m iReg vram a ≠ true := by
            intro h
            exact hex (List.any_eq_true.mp h)
          rw [Bool.eq_false_iff.mpr h1, Bool.eq_false_iff.mpr h2]
      -- the VF value entering the recursive call
      have hvf1 : (if height ≤ y + a then (vf + 1) % 256 else vf) =
          vf + (if height ≤ y + a then 1 else 0) := by
        by_cases hya : height ≤ y + a
        · rw [if_pos hya, if_pos hya, Nat.mod_eq_of_lt (by omega)]
        · rw [if_neg hya, if_neg hya]
          omega
      set offA : Nat := if height ≤ y + a then 1 else 0 with hoffA
      have hoffA1 : offA ≤ 1 := by
        rw [hoffA]
        split <;> omega
      set clobA : Nat := if rowClobber16 wrap width height x y m iReg vram a = true
        then 1 else 0 with hclobA
      have hclobA1 : clobA ≤ 1 := by
        rw [hclobA]
        split <;> omega
      have hvf2 : (if (drawCols16 wrap width x (rowOffsetOf width height y a)
            (bits16 m iReg a) (List.range 16) vram false).2 = true then
            ((if height ≤ y + a then (vf + 1) % 256 else vf) + 1) % 256
          else (if height ≤ y + a then (vf + 1) % 256 else vf)) =
          vf + offA + clobA := by
        rw [hclob, hvf1]
        by_cases hcl : rowClobber16 wrap width height x y m iReg vram a = true
        · rw [if_pos hcl, hclobA, if_pos hcl, Nat.mod_eq_of_lt (by omega)]
        · rw [if_neg hcl, hclobA, if_neg hcl]
          omega
      have hih := ih (a + 1)
        (drawCols16 wrap width x (rowOffsetOf width height y a) (bits16 m iReg a)
          (List.range 16) vram false).1
        (vf + offA + clobA) (by omega) (by omega)
      obtain ⟨hi1, hi2⟩ := hih
      have hdisj : ∀ p ∈ positions16 wrap width height x y m iReg (List.range' (a + 1) k),
          p ∉ rowPositions16 wrap width height x y m iReg a := by
        intro p hp hpa
        obtain ⟨r, hr, hpr⟩ := List.mem_flatMap.mp hp
        have hrge : a + 1 ≤ r ∧ r < a + 1 + k :=
          List.mem_range'_1.mp (mem_drawnRows hr)
        exact rowBlocks_disjoint hy hh (by omega) (by omega) (by omega)
          (mem_rowPositions16_bounds hx hw16 hpr) (mem_rowPositions16_bounds hx hw16 hpa)
      constructor
      · rw [hvf2, hi1, hc1, positions16_cons_keep hkeep, ← applyToggles_append]
      · rw [hvf2, hi2, offEvents_cons_keep hkeep, clobberRows16_cons_keep hkeep]
        have hcongr : clobberRows16 wrap width height x y m iReg
            ((drawCols16 wrap width x (rowOffsetOf width height y a) (bits16 m iReg a)
              (List.range 16) vram false).1) (List.range' (a + 1) k) =
            clobberRows16 wrap width height x y m iReg vram (List.range' (a + 1) k) := by
          apply clobberRows16_congr
          intro r hr p hp
          rw [hc1]
          apply applyToggles_getD_not_mem
          intro hpa
          exact hdisj p (by
            unfold positions16
            exact List.mem_flatMap.mpr ⟨r, hr, hp⟩) hpa
        rw [hcongr]
        omega


/-- The reduced x origin is on screen. -/
theorem drwX_lt (c : CPU) (vxi : Nat) (h : 0 < c.width) : drwX c vxi < c.width := by
  unfold drwX
  split
  · exact Nat.mod_lt _ h
  · omega

/-- The reduced y origin is on screen. -/
theorem drwY_lt (c : CPU) (vyi : Nat) (h : 0 < c.height) : drwY c vyi < c.height := by
  unfold drwY
  split
  · exact Nat.mod_lt _ h
  · omega

/-- Unfolding of the 16x16 draw: the resulting video buffer. -/
theorem execute_DRW0_vram (c : CPU) (rnd vxi vyi : Nat) :
    (c.execute rnd (.DRW_Vx_Vy_n vxi vyi 0)).vram =
      (drawRows16 c.quirks.sprite_wrapping c.width c.height c.memory c.i (drwX c vxi)
        (drwY c vyi) (List.range 16) c.vram 0).1 := rfl

/-- Unfolding of the 16x16 draw: the resulting registers. -/
theorem execute_DRW0_vx (c : CPU) (rnd vxi vyi : Nat) :
    (c.execute rnd (.DRW_Vx_Vy_n vxi vyi 0)).vx =
      (c.vx.set 15 0).set 15
        ((drawRows16 c.quirks.sprite_wrapping c.width c.height c.memory c.i (drwX c vxi)
          (drwY c vyi) (List.range 16) c.vram 0).2) := rfl

/-- Unfolding of the `n != 0` draw: the resulting video buffer. -/
theorem execute_DRWN_vram (c : CPU) (rnd vxi vyi n : Nat) (hn : n ≠ 0) :
    (c.execute rnd (.DRW_Vx_Vy_n vxi vyi n)).vram =
      (drawRowsN c.quirks.sprite_wrapping c.width c.height c.memory c.i (drwX c vxi)
        (drwY c vyi) (List.range n) c.vram 0).1 := by
  simp [CPU.execute, drwX, drwY, hn]

/-- Unfolding of the `n != 0` draw: the resulting registers. -/
theorem execute_DRWN_vx (c : CPU) (rnd vxi vyi n : Nat) (hn : n ≠ 0) :
    (c.execute rnd (.DRW_Vx_Vy_n vxi vyi n)).vx =
      (c.vx.set 15 0).set 15
        ((drawRowsN c.quirks.sprite_wrapping c.width c.height c.memory c.i (drwX c vxi)
          (drwY c vyi) (List.range n) c.vram 0).2) := by
  simp [CPU.execute, drwX, drwY, hn]

/-- Claim C1 (amended): for every well-formed state and DRW Vx,Vy,n —
(a) VF is reset to 0 before any pixel is drawn, so the result is independent of
the incoming VF whenever the coordinate registers are not VF themselves;
(b) in the n != 0 case, VF ends 1 exactly when some video pixel went from set
to unset during the draw, and 0 otherwise;
(c) in the 16x16 case (n = 0), VF instead counts events: one per off-bottom
row event plus one per visited row in which a drawn pixel collides, so a
collision leaves VF equal to the number of colliding rows (plus off-screen
events) rather than 1. -/
theorem claim_C1_draw (c : CPU) (rnd vxi vyi n : Nat)
    (hlen : c.vram.length = c.width * c.height) (hvx : c.vx.length = 16)
    (hw : 16 ≤ c.width) (hh : 16 ≤ c.height) (hn : n < 16) :
    (∀ v, vxi ≠ 15 → vyi ≠ 15 →
      CPU.execute { c with vx := c.vx.set 15 v } rnd (.DRW_Vx_Vy_n vxi vyi n) =
        c.execute rnd (.DRW_Vx_Vy_n vxi vyi n)) ∧
    (n ≠ 0 →
      ((c.execute rnd (.DRW_Vx_Vy_n vxi vyi n)).vxGet 15 = 1 ↔
        ∃ j, j < c.vram.length ∧ c.vram.getD j false = true ∧
          (c.execute rnd (.DRW_Vx_Vy_n vxi vyi n)).vram.getD j false = false) ∧
      (¬ (∃ j, j < c.vram.length ∧ c.vram.getD j false = true ∧
          (c.execute rnd (.DRW_Vx_Vy_n vxi vyi n)).vram.getD j false = false) →
        (c.execute rnd (.DRW_Vx_Vy_n vxi vyi n)).vxGet 15 = 0)) ∧
    (n = 0 →
      (c.execute rnd (.DRW_Vx_Vy_n vxi vyi n)).vxGet 15 =
        offEvents c.quirks.sprite_wrapping c.height (drwY c vyi) (List.range 16) +
          clobberRows16 c.quirks.sprite_wrapping c.width c.height (drwX c vxi)
            (drwY c vyi) c.memory c.i c.vram (List.range 16)) := by
  have hxlt : drwX c vxi < c.width := drwX_lt c vxi (by omega)
  have hylt : drwY c vyi < c.height := drwY_lt c vyi (by omega)
  refine ⟨?_, ?_, ?_⟩
  · intro v hxi hyi
    simp only [CPU.execute, CPU.vxGet]
    rw [getD_set_ne _ _ _ _ _ (fun h => hxi h.symm),
      getD_set_ne _ _ _ _ _ (fun h => hyi h.symm)]
    simp only [List.set_set]
  · intro hne
    have hspec := drawRowsN_spec c.quirks.sprite_wrapping c.width c.height c.memory c.i
      (drwX c vxi) (drwY c vyi) hxlt hylt (by omega) hh n 0 c.vram 0 (by omega)
    rw [← List.range_eq_range'] at hspec
    obtain ⟨hs1, hs2⟩ := hspec
    have hvf : (c.execute rnd (.DRW_Vx_Vy_n vxi vyi n)).vxGet 15 =
        (if ∃ p ∈ positionsN c.quirks.sprite_wrapping c.width c.height (drwX c vxi)
            (drwY c vyi) c.memory c.i (List.range n), c.vram.getD p false = true
          then 1 else 0) := by
      show (c.execute rnd (.DRW_Vx_Vy_n vxi vyi n)).vx.getD 15 0 = _
      rw [execute_DRWN_vx c rnd vxi vyi n hne, List.set_set,
        getD_set_self _ _ _ _ (by rw [hvx]; omega), hs2]
    have hvram : (c.execute rnd (.DRW_Vx_Vy_n vxi vyi n)).vram =
        applyToggles c.vram (positionsN c.quirks.sprite_wrapping c.width c.height
          (drwX c vxi) (drwY c vyi) c.memory c.i (List.range n)) := by
      rw [execute_DRWN_vram c rnd vxi vyi n hne, hs1]
    have hrows : ∀ r ∈ List.range n, r < 16 := by
      intro r hr
      have := List.mem_range.mp hr
      omega
    have hnodup := @positionsN_nodup c.quirks.sprite_wrapping c.width c.height
      (drwX c vxi) (drwY c vyi) c.i c.memory (List.range n) hxlt hylt
      (by omega) hh hrows (List.nodup_range n)
    constructor
    · rw [hvf]
      constructor
      · intro h1
        have hex : ∃ p ∈ positionsN c.quirks.sprite_wrapping c.width c.height (drwX c vxi)
            (drwY c vyi) c.memory c.i (List.range n), c.vram.getD p false = true := by
          by_contra hno
          rw [if_neg hno] at h1
          cases h1
        obtain ⟨p, hp, hv⟩ := hex
        have hplt : p < c.vram.length := by
          rw [hlen]
          exact mem_positionsN_lt hxlt hylt (by omega) hh hrows hp
        refine ⟨p, hplt, hv, ?_⟩
        rw [hvram, applyToggles_getD_mem _ _ _ hnodup hp hplt, hv]
        rfl
      · rintro ⟨j, hjlt, hjt, hjf⟩
        by_cases hjmem : j ∈ positionsN c.quirks.sprite_wrapping c.width c.height
            (drwX c vxi) (drwY c vyi) c.memory c.i (List.range n)
        · rw [if_pos ⟨j, hjmem, hjt⟩]
        · rw [hvram, applyToggles_getD_not_mem _ _ _ hjmem, hjt] at hjf
          cases hjf
    · intro hno
      rw [hvf, if_neg ?_]
      rintro ⟨p, hp, hv⟩
      have hplt : p < c.vram.length := by
        rw [hlen]
        exact mem_positionsN_lt hxlt hylt (by omega) hh hrows hp
      refine hno ⟨p, hplt, hv, ?_⟩
      rw [hvram, applyToggles_getD_mem _ _ _ hnodup hp hplt, hv]
      rfl
  · intro h0
    subst h0
    have hspec := drawRows16_spec c.quirks.sprite_wrapping c.width c.height c.memory c.i
      (drwX c vxi) (drwY c vyi) hxlt hylt hw hh 16 0 c.vram 0 (by omega) (by omega)
    rw [← List.range_eq_range'] at hspec
    show (CPU.execute c rnd (.DRW_Vx_Vy_n vxi vyi 0)).vx.getD 15 0 = _
    rw [execute_DRW0_vx, List.set_set, getD_set_self _ _ _ _ (by rw [hvx]; omega),
      hspec.2]
    omega


/-- Claim C1 counterexample: a 16x16 draw at (0,0) on a fully set 16x16 screen
with a one-pixel-per-row sprite.  Pixels transition from set to unset (pixel 0
does), no sprite row runs off the bottom edge, yet VF ends at 16 — one
increment per colliding row — not at 1 as the claim states. -/
theorem claim_C1_counterexample :
    (cexC1.execute 0 (.DRW_Vx_Vy_n 0 1 0)).vxGet 15 = 16 ∧
    cexC1.vram.getD 0 false = true ∧
    (cexC1.execute 0 (.DRW_Vx_Vy_n 0 1 0)).vram.getD 0 false = false ∧
    (∀ r, r < 16 → cexC1.vxGet 1 + r < cexC1.height) ∧
    (16 : Nat) ≠ 1 := by
  refine ⟨by decide, rfl, by decide, by decide, by decide⟩

/-- Witness for claim C1 on the cleared 16x16 machine: the draw result ignores
the incoming VF, an 8-wide draw on a clear screen reports no collision, and a
16x16 draw at the origin produces zero off-bottom events and zero colliding
rows. -/
theorem claim_C1_draw_witness :
    (CPU.execute { wDrawCPU with vx := wDrawCPU.vx.set 15 7 } 0
        (.DRW_Vx_Vy_n 0 1 1) = wDrawCPU.execute 0 (.DRW_Vx_Vy_n 0 1 1)) ∧
    (wDrawCPU.execute 0 (.DRW_Vx_Vy_n 0 1 1)).vxGet 15 = 0 ∧
    (wDrawCPU.execute 0 (.DRW_Vx_Vy_n 0 1 0)).vxGet 15 = 0 := by
  have h1 := claim_C1_draw wDrawCPU 0 0 1 1 (by decide) (by decide) (by decide)
    (by decide) (by decide)
  have h0 := claim_C1_draw wDrawCPU 0 0 1 0 (by decide) (by decide) (by decide)
    (by decide) (by decide)
  refine ⟨h1.1 7 (by decide) (by decide), ?_, ?_⟩
  · exact (h1.2.1 (by decide)).2 (by decide)
  · rw [h0.2.2 rfl]
    decide

end RsChip8
